import Mathlib

/-! OpenCC: text dictionary and shortest-path segmenter

A shallow embedding of `src/dictionary/opencc_dictionary_text.c` and
`src/opencc_converter.c`.

Conventions of the embedding.

* A code point (`ucs4_t`) is a natural number.  A pointer into a
  NUL-terminated buffer is the list of cells from the pointer onwards; cells
  past the end of the list read as the terminator `0`.
* The keys and values stored in a lexicon are represented by their code
  points before the terminator.
* `size_t` is a natural number below `2 ^ 64`; subtraction and increment wrap.
* Scratch arrays (`word_buff`, `match_length`, `min_len`, `parent`, `path`)
  are functions from indices to cells, so that stale cells left by earlier
  calls are part of the state.
-/

namespace OpenCC

/-! ## Machine integers and arrays -/

/-- The value of `(size_t) -1`. -/
def SIZE_MAX : Nat := 2 ^ 64 - 1

/-- Subtraction of `size_t` values, wrapping below zero. -/
def size_sub (a b : Nat) : Nat := if b ≤ a then a - b else a + 2 ^ 64 - b

/-- Increment of a `size_t` value, wrapping at `2 ^ 64`. -/
def size_succ (a : Nat) : Nat := (a + 1) % 2 ^ 64

/-- The array `f` after the assignment `f[i] = v`. -/
def upd (f : Nat → Nat) (i v : Nat) : Nat → Nat := fun j => if j = i then v else f j

/-! ## Helpers of `opencc_encoding.h` -/

/-- Modelled from the spec: `ucs4len` of `opencc_encoding.h` (not under src/),
the number of code points before the terminator. -/
def ucs4len (s : List Nat) : Nat := (s.takeWhile (fun c => c != 0)).length

/-- Modelled from the spec: `ucs4cmp` of `opencc_encoding.h` (not under src/),
the code-point lexicographic comparison of two strings. -/
def ucs4cmp : List Nat → List Nat → Ordering
  | [], [] => Ordering.eq
  | [], _ :: _ => Ordering.lt
  | _ :: _, [] => Ordering.gt
  | a :: as, b :: bs =>
    if a < b then Ordering.lt else if b < a then Ordering.gt else ucs4cmp as bs

/-- Modelled from the spec: `ucs4ncpy` of `opencc_encoding.h` (not under src/):
copies the code points of `src` into `dest`, stopping at the terminator of
`src` or after `len` code points; the other cells of `dest` keep their
contents. -/
def ucs4ncpy (dest : Nat → Nat) (src : List Nat) (len : Nat) : Nat → Nat :=
  fun j => if j < min len (ucs4len src) then src.getD j 0 else dest j

/-- The string read from the start of the array `f`, whose cell `bound` is
known to hold the terminator. -/
def cstr_of (f : Nat → Nat) (bound : Nat) : List Nat :=
  ((List.range bound).map f).takeWhile (fun c => c != 0)

/-! ## Text dictionary -/

/-- An entry of a lexicon (`opencc_entry`). -/
structure opencc_entry where
  key : List Nat
  value : List Nat
deriving DecidableEq, Repr

/-- The struct `text_dictionary`; `entry_count` is the length of `lexicon`. -/
structure text_dictionary where
  max_length : Nat
  lexicon : List opencc_entry
  word_buff : Nat → Nat

/-- The field `entry_count`. -/
def text_dictionary.entry_count (td : text_dictionary) : Nat := td.lexicon.length

/-- The loop of the C library `bsearch` with comparator `qsort_entry_cmp`,
on the half-open index range `[l, u)`. -/
def bsearch_loop (key : List Nat) (base : List opencc_entry) :
    Nat → Nat → Nat → Option opencc_entry
  | 0, _, _ => none
  | fuel + 1, l, u =>
    if l < u then
      let idx := (l + u) / 2
      match base.get? idx with
      | none => none
      | some e =>
        match ucs4cmp key e.key with
        | Ordering.lt => bsearch_loop key base fuel l idx
        | Ordering.gt => bsearch_loop key base fuel (idx + 1) u
        | Ordering.eq => some e
    else none

/-- The call `bsearch(&buff, lexicon, entry_count, ..., qsort_entry_cmp)`. -/
def bsearch (key : List Nat) (base : List opencc_entry) : Option opencc_entry :=
  bsearch_loop key base base.length 0 base.length

/-- The probing loop `for (; len > 0; len --)` of `dict_text_match_longest`:
returns the value found, the value left in `*match_length`, and the word
buffer. -/
def match_longest_loop (lexicon : List opencc_entry) :
    Nat → (Nat → Nat) → Option (List Nat) × Nat × (Nat → Nat)
  | 0, wb => (none, 0, wb)
  | len + 1, wb =>
    let wb1 := upd wb (len + 1) 0
    match bsearch (cstr_of wb1 (len + 1)) lexicon with
    | some e => (some e.value, len + 1, wb1)
    | none => match_longest_loop lexicon len wb1

/-- The function `dict_text_match_longest`.  `ml` is the value `*match_length`
holds before the call; the result is the returned value (`none` for `NULL`), the
value of `*match_length` after the call and the dictionary with its word
buffer as the call leaves it. -/
def dict_text_match_longest (td : text_dictionary) (word : List Nat) (maxlen : Nat)
    (ml : Nat) : Option (List Nat) × Nat × text_dictionary :=
  if td.entry_count = 0 then (none, ml, td)
  else
    let maxlen1 := if maxlen = 0 then ucs4len word else maxlen
    let len := if maxlen1 < td.max_length then maxlen1 else td.max_length
    let wb := upd (ucs4ncpy td.word_buff word len) len 0
    let r := match_longest_loop td.lexicon len wb
    (r.1, r.2.1, { td with word_buff := r.2.2 })

/-- The probing loop of `dict_text_get_all_match_lengths`: the state is the
word buffer, the output array and `rscnt`. -/
def all_match_loop (lexicon : List opencc_entry) :
    Nat → (Nat → Nat) → (Nat → Nat) → Nat → (Nat → Nat) × (Nat → Nat) × Nat
  | 0, wb, out, rscnt => (wb, out, rscnt)
  | len + 1, wb, out, rscnt =>
    let wb1 := upd wb (len + 1) 0
    match bsearch (cstr_of wb1 (len + 1)) lexicon with
    | some _ => all_match_loop lexicon len wb1 (upd out rscnt (len + 1)) (rscnt + 1)
    | none => all_match_loop lexicon len wb1 out rscnt

/-- The function `dict_text_get_all_match_lengths`: returns the count, the
output array `match_length` after the call and the dictionary. -/
def dict_text_get_all_match_lengths (td : text_dictionary) (word : List Nat)
    (match_length : Nat → Nat) : Nat × (Nat → Nat) × text_dictionary :=
  if td.entry_count = 0 then (0, match_length, td)
  else
    let length := ucs4len word
    let len := if length < td.max_length then length else td.max_length
    let wb := upd (ucs4ncpy td.word_buff word len) len 0
    let r := all_match_loop td.lexicon len wb match_length 0
    (r.2.2, r.2.1, { td with word_buff := r.1 })

/-! ## Converter -/

/-- The error codes of `converter_error`. -/
inductive converter_error where
  | CONVERTER_ERROR_VOID
  | CONVERTER_ERROR_NODICT
  | CONVERTER_ERROR_OUTBUF
deriving DecidableEq, Repr

/-- The struct `opencc_sp_seg_buffer`. -/
structure opencc_sp_seg_buffer where
  initialized : Bool
  buffer_size : Nat
  match_length : Nat → Nat
  min_len : Nat → Nat
  parent : Nat → Nat
  path : Nat → Nat

/-- The function `sp_seg_set_buffer_size`.  The freshly allocated arrays hold
indeterminate cells: the model leaves the cells as they are, and the theorems
hold for all cell contents. -/
def sp_seg_set_buffer_size (ossb : opencc_sp_seg_buffer) (buffer_size : Nat) :
    opencc_sp_seg_buffer :=
  { ossb with buffer_size := buffer_size, initialized := true }

/-- The state a conversion works on: the converter description `cd` (the
scratch arrays and the dictionary in use), the caller's cursors and the global
`errnum`.  `inbuf` is the offset of `*inbuf` from the start of the input;
`out` lists the cells written through `*outbuf` so far, in order. -/
structure conv_state where
  sp_seg_buffer : opencc_sp_seg_buffer
  dicts : text_dictionary
  inbuf : Nat
  inbuf_left : Nat
  out : List Nat
  outbuf_left : Nat
  errnum : converter_error

/-- Modelled from the spec: `dict_match_longest` of `opencc_dictionary.c` (not
under src/), which delegates to the dictionary in use. -/
def dict_match_longest (s : conv_state) (word : List Nat) (maxlen ml : Nat) :
    Option (List Nat) × Nat × conv_state :=
  let r := dict_text_match_longest s.dicts word maxlen ml
  (r.1, r.2.1, { s with dicts := r.2.2 })

/-- Modelled from the spec: `dict_get_all_match_lengths` of
`opencc_dictionary.c` (not under src/), which delegates to the dictionary in use
and writes into the scratch array `match_length`. -/
def dict_get_all_match_lengths (s : conv_state) (word : List Nat) : Nat × conv_state :=
  let r := dict_text_get_all_match_lengths s.dicts word s.sp_seg_buffer.match_length
  (r.1, { s with dicts := r.2.2,
                 sp_seg_buffer := { s.sp_seg_buffer with match_length := r.2.1 } })

/-- The statements `**outbuf = **inbuf; (*outbuf)++, (*outbuf_left)--;
(*inbuf)++, (*inbuf_left)--;` of `sp_seg`. -/
def emit_verbatim (inp : List Nat) (s : conv_state) : conv_state :=
  { s with out := s.out ++ [inp.getD s.inbuf 0],
           outbuf_left := size_sub s.outbuf_left 1,
           inbuf := s.inbuf + 1,
           inbuf_left := size_sub s.inbuf_left 1 }

/-- The loop `for (; *match_rs; match_rs ++)` of `sp_seg` followed by the
advance of the input cursor by `n` code points. -/
def emit_value (v : List Nat) (n : Nat) (s : conv_state) : conv_state :=
  { s with out := s.out ++ v,
           outbuf_left := size_sub s.outbuf_left v.length,
           inbuf := s.inbuf + n,
           inbuf_left := size_sub s.inbuf_left n }

/-- The branch `length == 1` of `sp_seg`. -/
def sp_seg_one (inp : List Nat) (s : conv_state) : Nat × conv_state :=
  let r := dict_match_longest s (inp.drop s.inbuf) 1 0
  let s1 := r.2.2
  match r.1 with
  | none => (1, emit_verbatim inp s1)
  | some v =>
    if v.length > s1.outbuf_left then
      (SIZE_MAX, { s1 with errnum := converter_error.CONVERTER_ERROR_OUTBUF })
    else (1, emit_value v 1 s1)

/-- The inner loop `for (j = 0; j < match_count; j ++)` of the dynamic
programme of `sp_seg`, with `n = match_count - j` iterations to go. -/
def sp_seg_relax (i : Nat) : Nat → Nat → opencc_sp_seg_buffer → opencc_sp_seg_buffer
  | 0, _, b => b
  | n + 1, j, b =>
    let k := b.match_length j
    let b1 := { b with match_length := upd b.match_length j 0 }
    let d := size_succ (b1.min_len i)
    let b2 :=
      if 1 < k ∧ d ≤ b1.min_len (i + k) then
        { b1 with min_len := upd b1.min_len (i + k) d, parent := upd b1.parent (i + k) i }
      else if k = 1 ∧ d < b1.min_len (i + k) then
        { b1 with min_len := upd b1.min_len (i + k) d, parent := upd b1.parent (i + k) i }
      else b1
    sp_seg_relax i n (j + 1) b2

/-- One iteration of the loop `for (i = 0; i < length; i ++)` of `sp_seg`. -/
def sp_seg_dp_step (inp : List Nat) (s : conv_state) (i : Nat) : conv_state :=
  let r := dict_get_all_match_lengths s (inp.drop (s.inbuf + i))
  let s1 := r.2
  let b := s1.sp_seg_buffer
  let r1 : Nat × opencc_sp_seg_buffer :=
    if b.match_length 0 ≠ 1 then
      (r.1 + 1, { b with match_length := upd b.match_length r.1 1 })
    else (r.1, b)
  { s1 with sp_seg_buffer := sp_seg_relax i r1.1 0 r1.2 }

/-- The loop `for (i = 0; i < length; i ++)` of `sp_seg`, with `n = length - i`
iterations to go. -/
def sp_seg_dp (inp : List Nat) : Nat → Nat → conv_state → conv_state
  | 0, _, s => s
  | n + 1, i, s => sp_seg_dp inp n (i + 1) (sp_seg_dp_step inp s i)

/-- The loop `for (i = length, j = min_len[length]; i != 0; i = parent[i])
path[--j] = i;` of `sp_seg`.  `none` when the walk has not reached `0` after
`fuel` steps, which happens only if some `parent[i]` is not below `i`. -/
def sp_seg_walk (parent : Nat → Nat) : Nat → Nat → Nat → (Nat → Nat) → Option (Nat → Nat)
  | fuel, i, j, path =>
    if i = 0 then some path
    else
      match fuel with
      | 0 => none
      | fuel1 + 1 =>
        sp_seg_walk parent fuel1 (parent i) (size_sub j 1) (upd path (size_sub j 1) i)

/-- The loop `for (i = begin = 0; i < min_len[length]; i ++)` of `sp_seg`
together with the final `return`, with `n = min_len[length] - i` iterations to
go.  The result is the returned `size_t` and the state. -/
def sp_seg_emit (inp : List Nat) (inbuf_left_start : Nat) :
    Nat → Nat → Nat → conv_state → Nat × conv_state
  | 0, _, _, s => (size_sub inbuf_left_start s.inbuf_left, s)
  | n + 1, i, begin, s =>
    let e := s.sp_seg_buffer.path i
    let r := dict_match_longest s (inp.drop s.inbuf) (size_sub e begin) 0
    let s1 := r.2.2
    match r.1 with
    | none => sp_seg_emit inp inbuf_left_start n (i + 1) e (emit_verbatim inp s1)
    | some v =>
      if v.length > s1.outbuf_left then
        if size_sub inbuf_left_start s1.inbuf_left > 0 then
          (size_sub inbuf_left_start s1.inbuf_left, s1)
        else (SIZE_MAX, { s1 with errnum := converter_error.CONVERTER_ERROR_OUTBUF })
      else sp_seg_emit inp inbuf_left_start n (i + 1) e (emit_value v r.2.1 s1)

/-- The assignments `min_len[i] = INFINITY_INT` for `i <= length` followed by
`min_len[0] = parent[0] = 0`. -/
def sp_seg_reset (INFINITY_INT : Nat) (ossb : opencc_sp_seg_buffer) (length : Nat) :
    opencc_sp_seg_buffer :=
  { ossb with
    min_len := upd (fun i => if i ≤ length then INFINITY_INT else ossb.min_len i) 0 0,
    parent := upd ossb.parent 0 0 }

/-- The general case of `sp_seg` up to the end of the dynamic programme: the
scratch arrays are grown if needed, `min_len` is reset and the loop
`for (i = 0; i < length; i ++)` is run.  `INFINITY_INT` is the macro of
`opencc_utils.h` (not under src/), taken as a parameter. -/
def sp_seg_table (INFINITY_INT : Nat) (inp : List Nat) (s : conv_state) (length : Nat) :
    conv_state :=
  let ossb := s.sp_seg_buffer
  let buffer_size_need := length + 1
  let ossb1 :=
    if ossb.initialized = false ∨ ossb.buffer_size < buffer_size_need then
      sp_seg_set_buffer_size ossb buffer_size_need
    else ossb
  sp_seg_dp inp length 0 { s with sp_seg_buffer := sp_seg_reset INFINITY_INT ossb1 length }

/-- The function `sp_seg`.  The result is `none` when the walk over `parent`
does not terminate, and otherwise the returned `size_t` (`SIZE_MAX` for
`(size_t) -1`) and the state. -/
def sp_seg (INFINITY_INT : Nat) (inp : List Nat) (s : conv_state) (length : Nat) :
    Option (Nat × conv_state) :=
  if length = 1 then some (sp_seg_one inp s)
  else
    let s1 := sp_seg_table INFINITY_INT inp s length
    let b := s1.sp_seg_buffer
    match sp_seg_walk b.parent length length (b.min_len length) b.path with
    | none => none
    | some path =>
      let s2 := { s1 with sp_seg_buffer := { b with path := path } }
      some (sp_seg_emit inp s2.inbuf_left (b.min_len length) 0 0 s2)

/-- A call of `sp_seg` from `segment` with the handling of its result:
`Sum.inl` is a `return` of `segment` with that value, `Sum.inr` lets
`segment` go on. -/
def segment_call (INFINITY_INT : Nat) (inp : List Nat) (inbuf_left_start : Nat)
    (s : conv_state) (length : Nat) : Option ((Nat × conv_state) ⊕ conv_state) :=
  match sp_seg INFINITY_INT inp s length with
  | none => none
  | some (sp_seg_length, s1) =>
    if sp_seg_length = SIZE_MAX then some (Sum.inl (SIZE_MAX, s1))
    else if sp_seg_length = 0 then
      if size_sub inbuf_left_start s1.inbuf_left > 0 then
        some (Sum.inl (size_sub inbuf_left_start s1.inbuf_left, s1))
      else
        some (Sum.inl (SIZE_MAX, { s1 with errnum := converter_error.CONVERTER_ERROR_OUTBUF }))
    else some (Sum.inr s1)

/-- The statements of `segment` after its scanning loop. -/
def segment_tail (INFINITY_INT : Nat) (inp : List Nat) (inbuf_left_start : Nat)
    (start bound : Nat) (s : conv_state) : Option (Nat × conv_state) :=
  if s.inbuf_left > 0 ∧ s.outbuf_left > 0 then
    match segment_call INFINITY_INT inp inbuf_left_start s (size_sub bound start) with
    | none => none
    | some (Sum.inl r) => some r
    | some (Sum.inr s1) => some (size_sub inbuf_left_start s1.inbuf_left, s1)
  else some (size_sub inbuf_left_start s.inbuf_left, s)

/-- The scanning loop of `segment` from index `i` on, followed by the rest of
the function; the first argument is the input from `inbuf_start + i`.
`u` is the indeterminate value the local `match_len` holds before
`dict_match_longest` is called. -/
def segment_scan (INFINITY_INT u : Nat) (inp : List Nat) (inbuf_left_start : Nat) :
    List Nat → Nat → Nat → Nat → conv_state → Option (Nat × conv_state)
  | [], _, start, bound, s => segment_tail INFINITY_INT inp inbuf_left_start start bound s
  | c :: rest, i, start, bound, s =>
    if c ≠ 0 ∧ s.inbuf_left > 0 ∧ s.outbuf_left > 0 then
      let closed : Option ((Nat × conv_state) ⊕ (Nat × conv_state)) :=
        if i ≠ 0 ∧ i = bound then
          match segment_call INFINITY_INT inp inbuf_left_start s (size_sub bound start) with
          | none => none
          | some (Sum.inl r) => some (Sum.inl r)
          | some (Sum.inr s1) => some (Sum.inr (i, s1))
        else some (Sum.inr (start, s))
      match closed with
      | none => none
      | some (Sum.inl r) => some r
      | some (Sum.inr (start1, s1)) =>
        let r := dict_match_longest s1 (c :: rest) 0 u
        let match_len := if r.2.1 = 0 then 1 else r.2.1
        let bound1 := if i + match_len > bound then i + match_len else bound
        segment_scan INFINITY_INT u inp inbuf_left_start rest (i + 1) start1 bound1 r.2.2
    else segment_tail INFINITY_INT inp inbuf_left_start start bound s

/-- The function `segment` (the variant compiled in, `SEGMENT_SHORTEST_PATH`).
`inp` is the buffer at `*inbuf` when the function is entered, and the field
`inbuf` of the state counts from there. -/
def segment (INFINITY_INT u : Nat) (inp : List Nat) (s : conv_state) :
    Option (Nat × conv_state) :=
  segment_scan INFINITY_INT u inp s.inbuf_left inp 0 0 0 { s with inbuf := 0 }

/-- What a caller observes of a result: the returned `size_t`, the cells
written to the output, the advance of `*inbuf`, `*inbuf_left`, `*outbuf_left`
and `errnum`. -/
def observe (r : Option (Nat × conv_state)) :
    Option (Nat × List Nat × Nat × Nat × Nat × converter_error) :=
  r.map (fun p => (p.1, p.2.out, p.2.inbuf, p.2.inbuf_left, p.2.outbuf_left, p.2.errnum))

/-- A dictionary as `dict_text_open` leaves it, with lexicon `lex` (sorted by
the caller) and a word buffer holding `wb`. -/
def mk_dict (lex : List opencc_entry) (wb : Nat → Nat) : text_dictionary :=
  { max_length := (lex.map (fun e => e.key.length)).foldl max 0, lexicon := lex, word_buff := wb }

/-- A converter as `converter_open` leaves it, with the scratch cells holding
`g`, using dictionary `td`, and the caller's cursors at the start of a call. -/
def mk_state (td : text_dictionary) (g : Nat → Nat) (inbuf_left outbuf_left : Nat) :
    conv_state :=
  { sp_seg_buffer :=
      { initialized := true, buffer_size := 1024, match_length := g, min_len := g,
        parent := g, path := g },
    dicts := td, inbuf := 0, inbuf_left := inbuf_left, out := [],
    outbuf_left := outbuf_left, errnum := converter_error.CONVERTER_ERROR_VOID }

/-! ## Specification vocabulary -/

/-- The lexicon is sorted by key with unique keys: strictly ascending under
`ucs4cmp`. -/
def lexicon_sorted (lex : List opencc_entry) : Prop :=
  lex.Pairwise (fun a b => ucs4cmp a.key b.key = Ordering.lt)

instance (lex : List opencc_entry) : Decidable (lexicon_sorted lex) := by
  unfold lexicon_sorted; infer_instance

/-- The string `k` is a key of the lexicon. -/
def is_key (lex : List opencc_entry) (k : List Nat) : Prop := ∃ e ∈ lex, e.key = k

/-- The value stored for the key `k`, if `k` is a key. -/
def value_of (lex : List opencc_entry) (k : List Nat) : Option (List Nat) :=
  (lex.find? (fun e => decide (e.key = k))).map (fun e => e.value)

/-- The longest prefix of `word` of length at most `len` that is a key, with
its value: the search `for k = len, len - 1, ..., 1` of the specification. -/
def longest_match (lex : List opencc_entry) (word : List Nat) : Nat → Option (List Nat × Nat)
  | 0 => none
  | len + 1 =>
    match value_of lex (word.take (len + 1)) with
    | some v => some (v, len + 1)
    | none => longest_match lex word len

/-- The lengths `k` in `[1, len]` for which the prefix of `word` of length `k`
is a key, in descending order. -/
def all_lengths (lex : List opencc_entry) (word : List Nat) : Nat → List Nat
  | 0 => []
  | len + 1 =>
    if (value_of lex (word.take (len + 1))).isSome then (len + 1) :: all_lengths lex word len
    else all_lengths lex word len

/-- The array `out` after the elements of `l` are stored from index `pos` on. -/
def store (out : Nat → Nat) (pos : Nat) (l : List Nat) : Nat → Nat :=
  fun j => if pos ≤ j ∧ j < pos + l.length then l.getD (j - pos) 0 else out j

/-- The contract of `match_longest` for a cap `maxlen` on the word `W`: with
`L = min(maxlen, length(W), max_key_length)` (`maxlen = 0` meaning
`length(W)`), the call hits exactly when some prefix of `W` of length in
`[1, L]` is a key, and on a hit the reported length is the largest such length
and the returned value is stored for that prefix. -/
def match_longest_post (td : text_dictionary) (W : List Nat) (maxlen ml : Nat) : Prop :=
  let L := min (if maxlen = 0 then ucs4len W else maxlen) (min (ucs4len W) td.max_length)
  let r := dict_text_match_longest td W maxlen ml
  (r.1.isSome ↔ ∃ k, 1 ≤ k ∧ k ≤ L ∧ is_key td.lexicon (W.take k)) ∧
  (∀ v, r.1 = some v →
    1 ≤ r.2.1 ∧ r.2.1 ≤ L ∧ value_of td.lexicon (W.take r.2.1) = some v ∧
    ∀ k, 1 ≤ k → k ≤ L → is_key td.lexicon (W.take k) → k ≤ r.2.1)

/-- The contract of `all_match_lengths` on the word `W`, with `ml` the output
array before the call: the cells `[0, count)` of the output array hold exactly
the lengths `k` in `[1, min(max_key_length, length(W))]` whose prefix
`W[0..k]` is a key, in strictly descending order (so each once), the other
cells are untouched, and `count` is the value returned. -/
def all_match_lengths_post (td : text_dictionary) (W : List Nat) (ml : Nat → Nat) : Prop :=
  let r := dict_text_get_all_match_lengths td W ml
  let written := (List.range r.1).map r.2.1
  (∀ k, k ∈ written ↔
    1 ≤ k ∧ k ≤ min td.max_length (ucs4len W) ∧ is_key td.lexicon (W.take k)) ∧
  written.Pairwise (fun a b => b < a) ∧
  (∀ j, r.1 ≤ j → r.2.1 j = ml j)

/-- The lengths of the keys that are prefixes of the string at `w`, as
`dict_text_get_all_match_lengths` enumerates them for a dictionary with lexicon
`lex` and `max_length = M`. -/
def key_lengths (lex : List opencc_entry) (M : Nat) (w : List Nat) : List Nat :=
  all_lengths lex w (min (ucs4len w) M)

/-- The candidate lengths the dynamic programme of `sp_seg` considers at one
position: the key lengths, followed by the fallback `1` when the first cell of
`match_length` is not `1`; `ml0` is the stale content of that cell. -/
def candidates (lex : List opencc_entry) (M : Nat) (w : List Nat) (ml0 : Nat) : List Nat :=
  if (key_lengths lex M w).headD ml0 ≠ 1 then key_lengths lex M w ++ [1]
  else key_lengths lex M w

/-- The effect of one candidate length `k` at position `i` on `min_len` and
`parent`. -/
def relax1 (i : Nat) (st : (Nat → Nat) × (Nat → Nat)) (k : Nat) : (Nat → Nat) × (Nat → Nat) :=
  if (1 < k ∧ size_succ (st.1 i) ≤ st.1 (i + k)) ∨ (k = 1 ∧ size_succ (st.1 i) < st.1 (i + k)) then
    (upd st.1 (i + k) (size_succ (st.1 i)), upd st.2 (i + k) i)
  else st

/-- The dynamic programme of `sp_seg` on the pair (`min_len`, `parent`): for
the positions `i, i + 1, ..., i + n - 1` in turn, every candidate length of
`cand` at the position is relaxed. -/
def dp_fold (cand : Nat → List Nat) : Nat → Nat → (Nat → Nat) × (Nat → Nat) →
    (Nat → Nat) × (Nat → Nat)
  | 0, _, st => st
  | n + 1, i, st => dp_fold cand n (i + 1) ((cand i).foldl (relax1 i) st)

/-- The candidate lengths at position `i` of the window that starts at offset
`p` of `inp`, when the first cell of `match_length` is not a stale `1`. -/
def window_cands (lex : List opencc_entry) (M : Nat) (inp : List Nat) (p i : Nat) : List Nat :=
  candidates lex M (inp.drop (p + i)) 0

/-- Position `t` is reached from position `0` in `m` steps, each step going
from a position `j` forward by one of the candidate lengths `cand j`. -/
inductive reach (cand : Nat → List Nat) : Nat → Nat → Prop
  | zero : reach cand 0 0
  | step {j m k : Nat} : reach cand j m → k ∈ cand j → reach cand (j + k) (m + 1)

/-- The invariant of the dynamic programme of `sp_seg` on a window of `N` code
points, before position `i` is processed: `min_len[0] = 0`; the cells up to
`N` are at most `INF`; a cell below `INF` holds the number of steps of a path
whose last step comes from `parent`; the cells up to `i` are below `INF`; and
every step from a position before `i` has been relaxed. -/
def dp_inv (cand : Nat → List Nat) (N INF i : Nat) (st : (Nat → Nat) × (Nat → Nat)) : Prop :=
  st.1 0 = 0 ∧
  (∀ t, 1 ≤ t → t ≤ N → st.1 t ≤ INF) ∧
  (∀ t, 1 ≤ t → t ≤ N → st.1 t < INF →
    1 ≤ st.1 t ∧ st.1 t ≤ t ∧ st.2 t < t ∧ st.2 t < i ∧ st.1 t = st.1 (st.2 t) + 1 ∧
    (t - st.2 t) ∈ cand (st.2 t) ∧ reach cand t (st.1 t)) ∧
  (∀ t, 1 ≤ t → t ≤ i → t ≤ N → st.1 t < INF) ∧
  (∀ j, j < i → ∀ k ∈ cand j, j + k ≤ N → ∀ m, reach cand j m → st.1 (j + k) ≤ m + 1)

/-- The invariants of the data model on a text dictionary: the lexicon is
sorted by key with unique keys, `max_length` is at least the length of every
key, and keys and values are non-empty. -/
def dict_ok (td : text_dictionary) : Prop :=
  lexicon_sorted td.lexicon ∧
  ∀ e ∈ td.lexicon, e.key.length ≤ td.max_length ∧ e.key ≠ [] ∧ e.value ≠ []

instance (td : text_dictionary) : Decidable (dict_ok td) := by
  unfold dict_ok; infer_instance

/-- The part of the state that is not scratch: the cursors, the output, the
error code and the contents of the dictionary. -/
def core (s : conv_state) :
    Nat × Nat × List Nat × Nat × converter_error × List opencc_entry × Nat :=
  (s.inbuf, s.inbuf_left, s.out, s.outbuf_left, s.errnum, s.dicts.lexicon, s.dicts.max_length)

/-- The replacement of the single code point `c`: its value when `c` is a key,
and `c` itself otherwise. -/
def piece_out (lex : List opencc_entry) (c : Nat) : List Nat := (value_of lex [c]).getD [c]

/-- The lexicon of scenario S3, sorted by key: {"a" -> "A", "ab" -> "P",
"b" -> "B", "bc" -> "Q", "c" -> "C"}. -/
def lexicon_s3 : List opencc_entry :=
  [⟨[97], [65]⟩, ⟨[97, 98], [80]⟩, ⟨[98], [66]⟩, ⟨[98, 99], [81]⟩, ⟨[99], [67]⟩]

/-! ## Dictionary group and conversion chain -/

/-- Modelled from the spec: the dictionary group `opencc_dictionary_t` of
`opencc_dictionary.c` (not under src/): the dictionaries of the chain, one per
stage, and the index of the one in use. -/
structure opencc_dictionary where
  dict : List text_dictionary
  current : Nat

/-- Modelled from the spec: `dict_count` of `opencc_dictionary.c` (not under
src/), the number of dictionaries of the group. -/
def dict_count (d : opencc_dictionary) : Nat := d.dict.length

/-- Modelled from the spec: `dict_use` of `opencc_dictionary.c` (not under
src/), which selects the dictionary in use. -/
def dict_use (d : opencc_dictionary) (i : Nat) : opencc_dictionary := { d with current := i }

/-- The struct `opencc_converter_description`; `dicts = none` stands for the
pointer `NULL`. -/
structure opencc_converter_description where
  sp_seg_buffer : opencc_sp_seg_buffer
  dicts : Option opencc_dictionary

/-- The function `converter_open`.  The cells of the arrays that
`sp_seg_set_buffer_size` allocates are indeterminate: they are the cells of
`g`. -/
def converter_open (g : opencc_sp_seg_buffer) : opencc_converter_description :=
  { sp_seg_buffer := sp_seg_set_buffer_size { g with initialized := false } 1024,
    dicts := none }

/-- The function `converter_assign_dicts`. -/
def converter_assign_dicts (cd : opencc_converter_description) (dicts : opencc_dictionary) :
    opencc_converter_description :=
  { cd with dicts := some dicts }

/-- The two buffers a chained conversion writes to: the caller's output buffer
(`orig_outbuf`) and the scratch buffer (`tmpbuf`). -/
inductive buffer_id where
  | caller
  | scratch
deriving DecidableEq, Repr

/-- The function `memcpy` of the C library on arrays of `ucs4_t`, a code point
being 32 bits wide (the type is declared outside src/; the width is the one of
the spec's data model): the first `n` BYTES of `src` are copied, that is `n / 4`
cells and the `n % 4` low-order bytes of the next one (little-endian layout). -/
def memcpy_ucs4 (dest src : Nat → Nat) (n : Nat) : Nat → Nat :=
  fun j =>
    if j < n / 4 then src j
    else if j = n / 4 then dest j / 256 ^ (n % 4) * 256 ^ (n % 4) + src j % 256 ^ (n % 4)
    else dest j

/-- The `bound` cells of a buffer, as the string a stage reads from it. -/
def buffer_cells (cells : Nat → Nat) (bound : Nat) : List Nat := (List.range bound).map cells

/-- The local variables of `converter_convert` in the chained case together
with what they point to: the converter description, the contents of `tmpbuf`
and of the caller's output buffer (from `orig_outbuf` on), `cinbuf_left`,
`coutbuf` (a buffer and an offset into it), `coutbuf_left`, `coutbuf_delta`,
`retval`, the caller's `*inbuf` (as an advance) and `*inbuf_left`, and the
global `errnum`. -/
structure chain_state where
  sp_seg_buffer : opencc_sp_seg_buffer
  dicts : opencc_dictionary
  tmpbuf : Nat → Nat
  outcells : Nat → Nat
  cinbuf_left : Nat
  coutbuf : buffer_id × Nat
  coutbuf_left : Nat
  coutbuf_delta : Nat
  retval : Nat
  inbuf : Nat
  inbuf_left : Nat
  errnum : converter_error

/-- The state `segment` starts from when it is called on the converter with
scratch arrays `b` and the dictionary `td` in use. -/
def stage_state (b : opencc_sp_seg_buffer) (td : text_dictionary) (inbuf_left outbuf_left : Nat)
    (errnum : converter_error) : conv_state :=
  { sp_seg_buffer := b, dicts := td, inbuf := 0, inbuf_left := inbuf_left, out := [],
    outbuf_left := outbuf_left, errnum := errnum }

/-- One iteration of the loop `for (i = cur = 0; i < dict_count(cd->dicts);
++i, cur = 1 - cur)` of `converter_convert`.  `Sum.inl` is the `return
(size_t) -1`; `none` arises when `segment` does not return or when the group
has no dictionary of index `i`.  A stage reads the cells of its input buffer up
to the buffer's size `outbuf_size`. -/
def convert_stage (INFINITY_INT u : Nat) (inp : List Nat) (outbuf_size : Nat) (i cur : Nat)
    (v : chain_state) : Option (chain_state ⊕ chain_state) :=
  let cinbuf_left := if i > 0 then v.coutbuf_delta else v.cinbuf_left
  let coutbuf_left := if i > 0 then outbuf_size else v.coutbuf_left
  let cinbuf : List Nat :=
    if i > 0 then
      if cur = 1 then buffer_cells v.tmpbuf outbuf_size else buffer_cells v.outcells outbuf_size
    else inp
  let dst : buffer_id :=
    if i > 0 then (if cur = 1 then buffer_id.caller else buffer_id.scratch) else v.coutbuf.1
  let d := dict_use v.dicts i
  match d.dict.get? d.current with
  | none => none
  | some td =>
    match segment INFINITY_INT u cinbuf
        (stage_state v.sp_seg_buffer td cinbuf_left coutbuf_left v.errnum) with
    | none => none
    | some (ret, s) =>
      let v1 : chain_state :=
        { v with
          sp_seg_buffer := s.sp_seg_buffer,
          dicts := { d with dict := d.dict.set d.current s.dicts },
          tmpbuf := if dst = buffer_id.scratch then store v.tmpbuf 0 s.out else v.tmpbuf,
          outcells := if dst = buffer_id.caller then store v.outcells 0 s.out else v.outcells,
          cinbuf_left := s.inbuf_left,
          coutbuf := (dst, s.out.length),
          coutbuf_left := s.outbuf_left,
          errnum := s.errnum }
      if ret = SIZE_MAX then some (Sum.inl v1)
      else
        let v2 := { v1 with coutbuf_delta := size_sub outbuf_size s.outbuf_left }
        if i = 0 then
          some (Sum.inr { v2 with retval := ret, inbuf := s.inbuf, inbuf_left := s.inbuf_left })
        else some (Sum.inr v2)

/-- The loop `for (i = cur = 0; i < dict_count(cd->dicts); ++i, cur = 1 - cur)`
of `converter_convert`, with `n = dict_count(cd->dicts) - i` iterations to go;
`u i` is the indeterminate value of the local `match_len` of `segment` in stage
`i`.  `Sum.inr` carries the value of `cur` when the loop is left. -/
def convert_loop (INFINITY_INT : Nat) (u : Nat → Nat) (inp : List Nat) (outbuf_size : Nat) :
    Nat → Nat → Nat → chain_state → Option (chain_state ⊕ (Nat × chain_state))
  | 0, _, cur, v => some (Sum.inr (cur, v))
  | n + 1, i, cur, v =>
    match convert_stage INFINITY_INT (u i) inp outbuf_size i cur v with
    | none => none
    | some (Sum.inl v1) => some (Sum.inl v1)
    | some (Sum.inr v1) => convert_loop INFINITY_INT u inp outbuf_size n (i + 1) (1 - cur) v1

/-- What `converter_convert` leaves behind: the value returned, the converter
description, the advance of `*inbuf`, `*inbuf_left`, the buffer `*outbuf`
points into with its offset, `*outbuf_left`, the contents of the caller's
output buffer and the global `errnum`. -/
structure convert_result where
  ret : Nat
  cd : opencc_converter_description
  inbuf : Nat
  inbuf_left : Nat
  outbuf : buffer_id × Nat
  outbuf_left : Nat
  outcells : Nat → Nat
  errnum : converter_error

/-- The function `converter_convert`.  `inp` is the caller's input at `*inbuf`,
`out0` the contents of the caller's output buffer before the call, `tmp0` the
indeterminate contents of the buffer `malloc` returns for `tmpbuf`, `retval0`
the indeterminate initial value of the local `retval`, and `u i` the
indeterminate initial value of the local `match_len` of `segment` in stage
`i`. -/
def converter_convert (INFINITY_INT : Nat) (u : Nat → Nat) (tmp0 : Nat → Nat) (retval0 : Nat)
    (cd : opencc_converter_description) (inp : List Nat) (inbuf_left : Nat)
    (out0 : Nat → Nat) (outbuf_left : Nat) (errnum : converter_error) :
    Option convert_result :=
  match cd.dicts with
  | none =>
    some { ret := SIZE_MAX, cd := cd, inbuf := 0, inbuf_left := inbuf_left,
           outbuf := (buffer_id.caller, 0), outbuf_left := outbuf_left, outcells := out0,
           errnum := converter_error.CONVERTER_ERROR_NODICT }
  | some d =>
    if dict_count d = 1 then
      match d.dict.get? d.current with
      | none => none
      | some td =>
        match segment INFINITY_INT (u 0) inp
            (stage_state cd.sp_seg_buffer td inbuf_left outbuf_left errnum) with
        | none => none
        | some (ret, s) =>
          some { ret := ret,
                 cd := { sp_seg_buffer := s.sp_seg_buffer,
                         dicts := some { d with dict := d.dict.set d.current s.dicts } },
                 inbuf := s.inbuf, inbuf_left := s.inbuf_left,
                 outbuf := (buffer_id.caller, s.out.length), outbuf_left := s.outbuf_left,
                 outcells := store out0 0 s.out, errnum := s.errnum }
    else
      let outbuf_size := outbuf_left
      let v0 : chain_state :=
        { sp_seg_buffer := cd.sp_seg_buffer, dicts := d, tmpbuf := tmp0, outcells := out0,
          cinbuf_left := inbuf_left, coutbuf := (buffer_id.scratch, 0),
          coutbuf_left := outbuf_size, coutbuf_delta := 0, retval := retval0,
          inbuf := 0, inbuf_left := inbuf_left, errnum := errnum }
      match convert_loop INFINITY_INT u inp outbuf_size (dict_count d) 0 0 v0 with
      | none => none
      | some (Sum.inl v) =>
        some { ret := SIZE_MAX,
               cd := { sp_seg_buffer := v.sp_seg_buffer, dicts := some v.dicts },
               inbuf := v.inbuf, inbuf_left := v.inbuf_left,
               outbuf := (buffer_id.caller, 0), outbuf_left := outbuf_left,
               outcells := v.outcells, errnum := v.errnum }
      | some (Sum.inr (cur, v)) =>
        some { ret := v.retval,
               cd := { sp_seg_buffer := v.sp_seg_buffer, dicts := some v.dicts },
               inbuf := v.inbuf, inbuf_left := v.inbuf_left,
               outbuf := v.coutbuf, outbuf_left := v.coutbuf_left,
               outcells :=
                 if cur = 1 then memcpy_ucs4 v.outcells v.tmpbuf v.coutbuf_delta
                 else v.outcells,
               errnum := v.errnum }

/-- What a caller observes of a result of `converter_convert`: the returned
`size_t`, the advance of `*inbuf`, `*inbuf_left`, the buffer `*outbuf` points
into and its offset, `*outbuf_left`, the first cells of the caller's output
buffer and `errnum`. -/
structure convert_observation where
  ret : Nat
  inbuf : Nat
  inbuf_left : Nat
  outbuf : buffer_id × Nat
  outbuf_left : Nat
  cells : List Nat
  errnum : converter_error
deriving DecidableEq, Repr

/-- The observation of a result of `converter_convert`, with the first `k`
cells of the caller's output buffer. -/
def observe_convert (k : Nat) (r : Option convert_result) : Option convert_observation :=
  r.map (fun p => ⟨p.ret, p.inbuf, p.inbuf_left, p.outbuf, p.outbuf_left,
    buffer_cells p.outcells k, p.errnum⟩)

/-- A dictionary group with the dictionaries `l`, the first one in use. -/
def mk_group (l : List text_dictionary) : opencc_dictionary := { dict := l, current := 0 }

/-! ## Loading a text dictionary -/

/-- The order `qsort_entry_cmp` induces on entries: `a` does not come after
`b`. -/
def entry_le (a b : opencc_entry) : Prop := ucs4cmp a.key b.key ≠ Ordering.gt

instance : DecidableRel entry_le := fun a b => by unfold entry_le; infer_instance

/-- The function `qsort` of the C library with the comparator
`qsort_entry_cmp`, which leaves the entries in ascending order of the
comparator.  The order of entries that compare equal is unspecified in C; the
model sorts by insertion. -/
def qsort (lexicon : List opencc_entry) : List opencc_entry :=
  lexicon.insertionSort entry_le

/-- What holds when `segment` calls `sp_seg`: the values of `start` and
`bound` (the length passed is `bound - start`), the offset of `*inbuf` from
`inbuf_start` and `*inbuf_left`. -/
structure sp_seg_call where
  start : Nat
  bound : Nat
  inbuf : Nat
  inbuf_left : Nat
deriving DecidableEq, Repr

/-- The calls of `sp_seg` made by the statements of `segment` after its
scanning loop. -/
def segment_tail_calls (start bound : Nat) (s : conv_state) : List sp_seg_call :=
  if s.inbuf_left > 0 ∧ s.outbuf_left > 0 then [⟨start, bound, s.inbuf, s.inbuf_left⟩] else []

/-- The calls of `sp_seg` made by the scanning loop of `segment` from index `i`
on and by the rest of the function, in order: the control flow is that of
`segment_scan`. -/
def segment_scan_calls (INFINITY_INT u : Nat) (inp : List Nat) (inbuf_left_start : Nat) :
    List Nat → Nat → Nat → Nat → conv_state → List sp_seg_call
  | [], _, start, bound, s => segment_tail_calls start bound s
  | c :: rest, i, start, bound, s =>
    if c ≠ 0 ∧ s.inbuf_left > 0 ∧ s.outbuf_left > 0 then
      if i ≠ 0 ∧ i = bound then
        ⟨start, bound, s.inbuf, s.inbuf_left⟩ ::
          match segment_call INFINITY_INT inp inbuf_left_start s (size_sub bound start) with
          | some (Sum.inr s1) =>
            let r := dict_match_longest s1 (c :: rest) 0 u
            let match_len := if r.2.1 = 0 then 1 else r.2.1
            let bound1 := if i + match_len > bound then i + match_len else bound
            segment_scan_calls INFINITY_INT u inp inbuf_left_start rest (i + 1) i bound1 r.2.2
          | _ => []
      else
        let r := dict_match_longest s (c :: rest) 0 u
        let match_len := if r.2.1 = 0 then 1 else r.2.1
        let bound1 := if i + match_len > bound then i + match_len else bound
        segment_scan_calls INFINITY_INT u inp inbuf_left_start rest (i + 1) start bound1 r.2.2
    else segment_tail_calls start bound s

/-- The calls of `sp_seg` made by `segment`, in order. -/
def segment_calls (INFINITY_INT u : Nat) (inp : List Nat) (s : conv_state) : List sp_seg_call :=
  segment_scan_calls INFINITY_INT u inp s.inbuf_left inp 0 0 0 { s with inbuf := 0 }

theorem ucs4cmp_eq_iff (a b : List Nat) : ucs4cmp a b = Ordering.eq ↔ a = b := by
  induction a generalizing b with
  | nil => cases b <;> simp [ucs4cmp]
  | cons x xs ih =>
    cases b with
    | nil => simp [ucs4cmp]
    | cons y ys =>
      simp only [ucs4cmp]
      by_cases h1 : x < y
      · simp [h1]; omega
      · by_cases h2 : y < x
        · simp [h1, h2]; omega
        · have : x = y := by omega
          simp [h1, h2, ih, this]

theorem ucs4cmp_gt_iff (a b : List Nat) : ucs4cmp a b = Ordering.gt ↔ ucs4cmp b a = Ordering.lt := by
  induction a generalizing b with
  | nil => cases b <;> simp [ucs4cmp]
  | cons x xs ih =>
    cases b with
    | nil => simp [ucs4cmp]
    | cons y ys =>
      simp only [ucs4cmp]
      by_cases h1 : x < y
      · have : ¬ y < x := by omega
        simp [h1, this]
      · by_cases h2 : y < x
        · simp [h1, h2]
        · simp [h1, h2, ih]

theorem ucs4cmp_lt_trans (a b c : List Nat) (h1 : ucs4cmp a b = Ordering.lt)
    (h2 : ucs4cmp b c = Ordering.lt) : ucs4cmp a c = Ordering.lt := by
  induction a generalizing b c with
  | nil =>
    cases b with
    | nil => simp [ucs4cmp] at h1
    | cons y ys =>
      cases c with
      | nil => simp [ucs4cmp] at h2
      | cons z zs => simp [ucs4cmp]
  | cons x xs ih =>
    cases b with
    | nil => simp [ucs4cmp] at h1
    | cons y ys =>
      cases c with
      | nil => simp [ucs4cmp] at h2
      | cons z zs =>
        simp only [ucs4cmp] at h1 h2 ⊢
        by_cases hxy : x < y
        · by_cases hyz : y < z
          · have : x < z := by omega
            simp [this]
          · by_cases hzy : z < y
            · simp [hyz, hzy] at h2
            · have : x < z := by omega
              simp [this]
        · by_cases hyx : y < x
          · simp [hxy, hyx] at h1
          · simp only [hxy, hyx, if_false] at h1
            have hxy' : x = y := by omega
            subst hxy'
            by_cases hyz : x < z
            · simp [hyz]
            · by_cases hzy : z < x
              · simp [hyz, hzy] at h2
              · simp only [hyz, hzy, if_false] at h2 ⊢
                exact ih _ _ h1 h2

theorem ucs4cmp_self (a : List Nat) : ucs4cmp a a = Ordering.eq :=
  (ucs4cmp_eq_iff a a).2 rfl

theorem bsearch_loop_some (key : List Nat) (base : List opencc_entry) (fuel l u : Nat)
    (e : opencc_entry) (h : bsearch_loop key base fuel l u = some e) :
    e ∈ base ∧ e.key = key := by
  induction fuel generalizing l u with
  | zero => simp [bsearch_loop] at h
  | succ n ih =>
    simp only [bsearch_loop] at h
    split at h
    · split at h
      · exact absurd h (by simp)
      · rename_i e1 he1
        split at h
        · exact ih _ _ h
        · exact ih _ _ h
        · rename_i hc
          have : e1 = e := by simpa using h
          subst this
          exact ⟨List.get?_mem he1, ((ucs4cmp_eq_iff _ _).1 hc).symm⟩
    · exact absurd h (by simp)

theorem bsearch_loop_none (key : List Nat) (base : List opencc_entry)
    (hs : lexicon_sorted base) (fuel l u : Nat) (hu : u ≤ base.length) (hf : u - l ≤ fuel)
    (hlo : ∀ i (h : i < base.length), i < l → ucs4cmp base[i].key key = Ordering.lt)
    (hhi : ∀ i (h : i < base.length), u ≤ i → ucs4cmp key base[i].key = Ordering.lt)
    (h : bsearch_loop key base fuel l u = none) : ∀ e ∈ base, e.key ≠ key := by
  have hp := (List.pairwise_iff_getElem.1 hs)
  induction fuel generalizing l u with
  | zero =>
    intro e he hk
    obtain ⟨i, hi, rfl⟩ := List.getElem_of_mem he
    by_cases hil : i < l
    · have := hlo i hi hil
      rw [hk, ucs4cmp_self] at this; exact absurd this (by simp)
    · have := hhi i hi (by omega)
      rw [hk, ucs4cmp_self] at this; exact absurd this (by simp)
  | succ n ih =>
    simp only [bsearch_loop] at h
    split at h
    · rename_i hlu
      have hidx : (l + u) / 2 < base.length := by omega
      rw [List.get?_eq_get hidx] at h
      simp only [List.get_eq_getElem] at h
      split at h
      · rename_i hc
        refine ih l ((l + u) / 2) (by omega) (by omega) hlo ?_ h
        intro i hi hge
        rcases Nat.eq_or_lt_of_le hge with heq | hlt
        · subst heq; exact hc
        · exact ucs4cmp_lt_trans _ _ _ hc (hp _ _ hidx hi hlt)
      · rename_i hc
        refine ih ((l + u) / 2 + 1) u hu (by omega) ?_ hhi h
        intro i hi hlt
        have hc' := (ucs4cmp_gt_iff _ _).1 hc
        rcases Nat.eq_or_lt_of_le (Nat.le_of_lt_succ hlt) with heq | hlt'
        · subst heq; exact hc'
        · exact ucs4cmp_lt_trans _ _ _ (hp _ _ hi hidx hlt') hc'
      · exact absurd h (by simp)
    · rename_i hlu
      intro e he hk
      obtain ⟨i, hi, rfl⟩ := List.getElem_of_mem he
      by_cases hil : i < l
      · have := hlo i hi hil
        rw [hk, ucs4cmp_self] at this; exact absurd this (by simp)
      · have := hhi i hi (by omega)
        rw [hk, ucs4cmp_self] at this; exact absurd this (by simp)

theorem sorted_key_inj (base : List opencc_entry) (hs : lexicon_sorted base)
    (a b : opencc_entry) (ha : a ∈ base) (hb : b ∈ base) (hk : a.key = b.key) : a = b := by
  unfold lexicon_sorted at hs
  induction hs with
  | nil => simp at ha
  | @cons x xs hx _ ih =>
    rcases List.mem_cons.1 ha with rfl | ha'
    · rcases List.mem_cons.1 hb with rfl | hb'
      · rfl
      · have := hx b hb'
        rw [hk, ucs4cmp_self] at this; exact absurd this (by simp)
    · rcases List.mem_cons.1 hb with rfl | hb'
      · have := hx a ha'
        rw [hk, ucs4cmp_self] at this; exact absurd this (by simp)
      · exact ih ha' hb'

theorem bsearch_eq_find (key : List Nat) (base : List opencc_entry)
    (hs : lexicon_sorted base) :
    bsearch key base = base.find? (fun e => decide (e.key = key)) := by
  cases hb : bsearch key base with
  | none =>
    have := bsearch_loop_none key base hs base.length 0 base.length (le_refl _) (by omega)
      (fun i _ hi => absurd hi (by omega)) (fun i h hi => absurd h (by omega)) hb
    symm
    rw [List.find?_eq_none]
    intro e he
    simpa using this e he
  | some e =>
    have ⟨he, hk⟩ := bsearch_loop_some key base _ _ _ e hb
    cases hf : base.find? (fun e => decide (e.key = key)) with
    | none =>
      rw [List.find?_eq_none] at hf
      have := hf e he
      simp [hk] at this
    | some e1 =>
      have h1 := List.mem_of_find?_eq_some hf
      have h2 := List.find?_some hf
      simp only [decide_eq_true_eq] at h2
      rw [sorted_key_inj base hs e e1 he h1 (by rw [hk, h2])]

theorem value_of_isSome (lex : List opencc_entry) (k : List Nat) :
    (value_of lex k).isSome ↔ is_key lex k := by
  unfold value_of is_key
  rw [Option.isSome_map']
  rw [List.find?_isSome]
  simp

theorem ucs4len_le_length (w : List Nat) : ucs4len w ≤ w.length := by
  unfold ucs4len
  exact (List.takeWhile_sublist _).length_le

theorem take_ucs4len_ne_zero (w : List Nat) (n : Nat) (hn : n ≤ ucs4len w) :
    ∀ c ∈ w.take n, c ≠ 0 := by
  intro c hc
  have hw : w = w.takeWhile (fun c => c != 0) ++ w.dropWhile (fun c => c != 0) :=
    (List.takeWhile_append_dropWhile _ w).symm
  have h1 : w.take n = (w.takeWhile (fun c => c != 0)).take n := by
    conv_lhs => rw [hw]
    exact List.take_append_of_le_length hn
  rw [h1] at hc
  have := List.mem_takeWhile_imp (List.mem_of_mem_take hc)
  simpa using this

theorem cstr_of_eq_take (f : Nat → Nat) (w : List Nat) (n : Nat)
    (hf : ∀ j, j < n → f j = w.getD j 0) (hn : n ≤ ucs4len w) :
    cstr_of f n = w.take n := by
  have hlen := ucs4len_le_length w
  have h1 : (List.range n).map f = w.take n := by
    apply List.ext_getElem
    · simp; omega
    · intro i h1 h2
      simp at h1
      simp [hf i h1, List.getD_eq_getElem?_getD, List.getElem?_eq_getElem (show i < w.length by omega)]
  unfold cstr_of
  rw [h1, List.takeWhile_eq_self_iff]
  intro c hc
  simpa using take_ucs4len_ne_zero w n hn c hc

theorem ucs4ncpy_spec (dest : Nat → Nat) (w : List Nat) (len : Nat) (hn : len ≤ ucs4len w) :
    ∀ j, j < len → upd (ucs4ncpy dest w len) len 0 j = w.getD j 0 := by
  intro j hj
  simp [upd, ucs4ncpy, Nat.ne_of_lt hj, Nat.min_eq_left hn, hj]

theorem match_longest_loop_eq (lex : List opencc_entry) (hs : lexicon_sorted lex)
    (w : List Nat) (len : Nat) (wb : Nat → Nat) (hn : len ≤ ucs4len w)
    (hf : ∀ j, j < len → wb j = w.getD j 0) :
    (match_longest_loop lex len wb).1 = (longest_match lex w len).map Prod.fst ∧
    (match_longest_loop lex len wb).2.1 = ((longest_match lex w len).map Prod.snd).getD 0 := by
  induction len generalizing wb with
  | zero => simp [match_longest_loop, longest_match]
  | succ n ih =>
    have hc : cstr_of (upd wb (n + 1) 0) (n + 1) = w.take (n + 1) := by
      apply cstr_of_eq_take _ _ _ _ hn
      intro j hj
      simp [upd, Nat.ne_of_lt hj, hf j hj]
    simp only [match_longest_loop, longest_match, hc, bsearch_eq_find _ lex hs, value_of]
    cases hfind : lex.find? (fun e => decide (e.key = w.take (n + 1))) with
    | some e => simp
    | none =>
      simp only [Option.map_none']
      apply ih _ (by omega)
      intro j hj
      simp [upd, show j ≠ n + 1 by omega, hf j (by omega)]

theorem all_match_loop_eq (lex : List opencc_entry) (hs : lexicon_sorted lex)
    (w : List Nat) (len : Nat) (wb out : Nat → Nat) (rscnt : Nat) (hn : len ≤ ucs4len w)
    (hf : ∀ j, j < len → wb j = w.getD j 0) :
    (all_match_loop lex len wb out rscnt).2.1 = store out rscnt (all_lengths lex w len) ∧
    (all_match_loop lex len wb out rscnt).2.2 = rscnt + (all_lengths lex w len).length := by
  induction len generalizing wb out rscnt with
  | zero =>
    simp only [all_match_loop, all_lengths, List.length_nil, Nat.add_zero, and_true]
    funext j
    have : ¬ (rscnt ≤ j ∧ j < rscnt) := by omega
    simp [store, this]
  | succ n ih =>
    have hc : cstr_of (upd wb (n + 1) 0) (n + 1) = w.take (n + 1) := by
      apply cstr_of_eq_take _ _ _ _ hn
      intro j hj
      simp [upd, Nat.ne_of_lt hj, hf j hj]
    have hf' : ∀ j, j < n → upd wb (n + 1) 0 j = w.getD j 0 := by
      intro j hj
      simp [upd, show j ≠ n + 1 by omega, hf j (by omega)]
    cases hfind : lex.find? (fun e => decide (e.key = w.take (n + 1))) with
    | some e =>
      have hb : bsearch (cstr_of (upd wb (n + 1) 0) (n + 1)) lex = some e := by
        rw [hc, bsearch_eq_find _ _ hs, hfind]
      have hv : value_of lex (w.take (n + 1)) = some e.value := by simp [value_of, hfind]
      simp only [all_match_loop, all_lengths, hb, hv, Option.isSome_some, if_true,
        List.length_cons]
      obtain ⟨h1, h2⟩ := ih (upd wb (n + 1) 0) (upd out rscnt (n + 1)) (rscnt + 1) (by omega) hf'
      rw [h1, h2]
      refine ⟨?_, by omega⟩
      funext j
      simp only [store, upd, List.length_cons]
      by_cases hj : j = rscnt
      · subst hj; simp
      · by_cases hj2 : rscnt + 1 ≤ j ∧ j < rscnt + 1 + (all_lengths lex w n).length
        · have hj3 : rscnt ≤ j ∧ j < rscnt + ((all_lengths lex w n).length + 1) := by omega
          rw [if_pos hj2, if_pos hj3]
          have : j - rscnt = (j - (rscnt + 1)) + 1 := by omega
          rw [this]; simp [List.getD_eq_getElem?_getD]
        · have hj3 : ¬ (rscnt ≤ j ∧ j < rscnt + ((all_lengths lex w n).length + 1)) := by omega
          rw [if_neg hj2, if_neg hj3, if_neg hj]
    | none =>
      have hb : bsearch (cstr_of (upd wb (n + 1) 0) (n + 1)) lex = none := by
        rw [hc, bsearch_eq_find _ _ hs, hfind]
      have hv : value_of lex (w.take (n + 1)) = none := by simp [value_of, hfind]
      simp only [all_match_loop, all_lengths, hb, hv, Option.isSome_none, Bool.false_eq_true,
        if_false]
      exact ih _ _ _ (by omega) hf'

theorem longest_match_none (lex : List opencc_entry) (w : List Nat) (len : Nat) :
    longest_match lex w len = none ↔ ∀ k, 1 ≤ k → k ≤ len → ¬ is_key lex (w.take k) := by
  induction len with
  | zero => simp only [longest_match, true_iff]; intro k h1 h2; omega
  | succ n ih =>
    simp only [longest_match]
    cases hv : value_of lex (w.take (n + 1)) with
    | some v =>
      constructor
      · intro h; exact absurd h (by simp)
      · intro h
        exact absurd ((value_of_isSome lex _).1 (by rw [hv]; rfl)) (h (n + 1) (by omega) (le_refl _))
    | none =>
      simp only []
      rw [ih]
      constructor
      · intro h k h1 h2
        rcases Nat.eq_or_lt_of_le h2 with rfl | h3
        · rw [← value_of_isSome, hv]; simp
        · exact h k h1 (by omega)
      · intro h k h1 h2
        exact h k h1 (by omega)

theorem longest_match_some (lex : List opencc_entry) (w : List Nat) (len : Nat)
    (v : List Nat) (k : Nat) (h : longest_match lex w len = some (v, k)) :
    1 ≤ k ∧ k ≤ len ∧ value_of lex (w.take k) = some v ∧
    ∀ j, k < j → j ≤ len → ¬ is_key lex (w.take j) := by
  induction len with
  | zero => simp [longest_match] at h
  | succ n ih =>
    simp only [longest_match] at h
    cases hv : value_of lex (w.take (n + 1)) with
    | some v1 =>
      rw [hv] at h
      simp only [Option.some.injEq, Prod.mk.injEq] at h
      obtain ⟨rfl, rfl⟩ := h
      exact ⟨by omega, le_refl _, hv, fun j h1 h2 => by omega⟩
    | none =>
      rw [hv] at h
      obtain ⟨h1, h2, h3, h4⟩ := ih h
      refine ⟨h1, by omega, h3, ?_⟩
      intro j hj1 hj2
      rcases Nat.eq_or_lt_of_le hj2 with rfl | h5
      · rw [← value_of_isSome, hv]; simp
      · exact h4 j hj1 (by omega)

theorem mem_all_lengths (lex : List opencc_entry) (w : List Nat) (len k : Nat) :
    k ∈ all_lengths lex w len ↔ 1 ≤ k ∧ k ≤ len ∧ is_key lex (w.take k) := by
  induction len with
  | zero => simp only [all_lengths, List.not_mem_nil, false_iff]; omega
  | succ n ih =>
    simp only [all_lengths]
    by_cases hv : (value_of lex (w.take (n + 1))).isSome = true
    · rw [if_pos hv, List.mem_cons, ih]
      constructor
      · rintro (rfl | ⟨h1, h2, h3⟩)
        · exact ⟨by omega, le_refl _, (value_of_isSome _ _).1 hv⟩
        · exact ⟨h1, by omega, h3⟩
      · rintro ⟨h1, h2, h3⟩
        rcases Nat.eq_or_lt_of_le h2 with rfl | h4
        · exact Or.inl rfl
        · exact Or.inr ⟨h1, by omega, h3⟩
    · rw [if_neg hv, ih]
      constructor
      · rintro ⟨h1, h2, h3⟩
        exact ⟨h1, by omega, h3⟩
      · rintro ⟨h1, h2, h3⟩
        rcases Nat.eq_or_lt_of_le h2 with rfl | h4
        · exact absurd ((value_of_isSome _ _).2 h3) hv
        · exact ⟨h1, by omega, h3⟩

theorem all_lengths_desc (lex : List opencc_entry) (w : List Nat) (len : Nat) :
    (all_lengths lex w len).Pairwise (fun a b => b < a) := by
  induction len with
  | zero => simp [all_lengths]
  | succ n ih =>
    simp only [all_lengths]
    split
    · rw [List.pairwise_cons]
      refine ⟨?_, ih⟩
      intro b hb
      have := ((mem_all_lengths lex w n b).1 hb).2.1
      omega
    · exact ih

theorem ite_lt_eq_min (a b : Nat) : (if a < b then a else b) = min a b := by
  rw [Nat.min_def]; split_ifs <;> omega

theorem longest_match_nil (w : List Nat) (len : Nat) : longest_match [] w len = none := by
  induction len with
  | zero => rfl
  | succ n ih => simp [longest_match, value_of, ih]

theorem dict_text_match_longest_frame (td : text_dictionary) (W : List Nat) (maxlen ml : Nat) :
    (dict_text_match_longest td W maxlen ml).2.2.lexicon = td.lexicon ∧
    (dict_text_match_longest td W maxlen ml).2.2.max_length = td.max_length := by
  unfold dict_text_match_longest
  split <;> simp

theorem dict_text_match_longest_eq (td : text_dictionary) (W : List Nat) (maxlen ml : Nat)
    (hs : lexicon_sorted td.lexicon) (hm : maxlen ≤ ucs4len W) :
    (dict_text_match_longest td W maxlen ml).1 =
      (longest_match td.lexicon W
        (min (if maxlen = 0 then ucs4len W else maxlen) td.max_length)).map Prod.fst ∧
    (td.lexicon ≠ [] → (dict_text_match_longest td W maxlen ml).2.1 =
      ((longest_match td.lexicon W
        (min (if maxlen = 0 then ucs4len W else maxlen) td.max_length)).map Prod.snd).getD 0) := by
  unfold dict_text_match_longest
  by_cases he : td.entry_count = 0
  · have hl : td.lexicon = [] := List.length_eq_zero.1 he
    simp [he, hl, longest_match_nil]
  · simp only [he, if_false]
    have hlen : (if (if maxlen = 0 then ucs4len W else maxlen) < td.max_length
        then (if maxlen = 0 then ucs4len W else maxlen) else td.max_length) =
        min (if maxlen = 0 then ucs4len W else maxlen) td.max_length := ite_lt_eq_min _ _
    rw [hlen]
    have hle : min (if maxlen = 0 then ucs4len W else maxlen) td.max_length ≤ ucs4len W := by
      split <;> omega
    have := match_longest_loop_eq td.lexicon hs W _
      (upd (ucs4ncpy td.word_buff W (min (if maxlen = 0 then ucs4len W else maxlen) td.max_length))
        (min (if maxlen = 0 then ucs4len W else maxlen) td.max_length) 0) hle
      (ucs4ncpy_spec _ _ _ hle)
    exact ⟨this.1, fun _ => this.2⟩

/-- C1 (amended): for a dictionary sorted by key with unique keys, a word `W`
and a cap `maxlen` that does not exceed `length(W)` (`maxlen = 0` meaning
`length(W)`), `dict_text_match_longest` hits exactly when some prefix of `W`
of length in `[1, L]`, `L = min(maxlen, length(W), max_key_length)`, is a key;
on a hit the reported length is the largest such length and the value returned
is the value stored for that prefix. -/
theorem dict_text_match_longest_correct (td : text_dictionary) (W : List Nat)
    (maxlen ml : Nat) (hs : lexicon_sorted td.lexicon) (hm : maxlen ≤ ucs4len W) :
    match_longest_post td W maxlen ml := by
  unfold match_longest_post
  obtain ⟨h1, _⟩ := dict_text_match_longest_eq td W maxlen ml hs hm
  have hL : min (if maxlen = 0 then ucs4len W else maxlen) (min (ucs4len W) td.max_length) =
      min (if maxlen = 0 then ucs4len W else maxlen) td.max_length := by
    split <;> omega
  simp only [hL]
  by_cases he : td.lexicon = []
  · have hr : dict_text_match_longest td W maxlen ml = (none, ml, td) := by
      simp [dict_text_match_longest, text_dictionary.entry_count, he]
    rw [hr]
    simp [is_key, he]
  · obtain ⟨_, h2⟩ := dict_text_match_longest_eq td W maxlen ml hs hm
    have h2 := h2 he
    cases hlm : longest_match td.lexicon W
        (min (if maxlen = 0 then ucs4len W else maxlen) td.max_length) with
    | none =>
      rw [hlm] at h1 h2
      have hn := (longest_match_none _ _ _).1 hlm
      simp only [Option.map_none'] at h1
      rw [h1]
      constructor
      · simp only [Option.isSome_none, Bool.false_eq_true, false_iff, not_exists, not_and]
        intro k hk1 hk2
        exact hn k hk1 hk2
      · intro v hv; exact absurd hv (by simp)
    | some p =>
      obtain ⟨v, k⟩ := p
      rw [hlm] at h1 h2
      obtain ⟨hk1, hk2, hk3, hk4⟩ := longest_match_some _ _ _ v k hlm
      simp only [Option.map_some', Option.getD_some] at h1 h2
      rw [h1, h2]
      constructor
      · simp only [Option.isSome_some, true_iff]
        exact ⟨k, hk1, hk2, (value_of_isSome _ _).1 (by rw [hk3]; rfl)⟩
      · intro v1 hv1
        have : v = v1 := by simpa using hv1
        subst this
        refine ⟨hk1, hk2, hk3, ?_⟩
        intro j hj1 hj2 hj3
        by_contra hlt
        exact hk4 j (by omega) hj2 hj3

/-- C1, witness: the dictionary {"a" -> "Z", "ab" -> "X", "abc" -> "Y"}, the
word "abcd" and the cap 2. -/
theorem dict_text_match_longest_correct_witness :
    lexicon_sorted (mk_dict [⟨[97], [90]⟩, ⟨[97, 98], [88]⟩, ⟨[97, 98, 99], [89]⟩]
      (fun _ => 0)).lexicon ∧ 2 ≤ ucs4len [97, 98, 99, 100] ∧
    match_longest_post (mk_dict [⟨[97], [90]⟩, ⟨[97, 98], [88]⟩, ⟨[97, 98, 99], [89]⟩]
      (fun _ => 0)) [97, 98, 99, 100] 2 7 :=
  ⟨by decide, by decide, dict_text_match_longest_correct _ _ _ _ (by decide) (by decide)⟩

/-- C1 as stated fails when the cap exceeds the length of the word: with the
dictionary {"a" -> "A", "bc" -> "B"}, the word "a" and `maxlen = 2`, the call
returns "A" and reports the matched length 2, although `L = 1`. -/
theorem dict_text_match_longest_cap_counterexample :
    lexicon_sorted (mk_dict [⟨[97], [65]⟩, ⟨[98, 99], [66]⟩] (fun _ => 0)).lexicon ∧
    (dict_text_match_longest (mk_dict [⟨[97], [65]⟩, ⟨[98, 99], [66]⟩] (fun _ => 0))
      [97] 2 0).1 = some [65] ∧
    (dict_text_match_longest (mk_dict [⟨[97], [65]⟩, ⟨[98, 99], [66]⟩] (fun _ => 0))
      [97] 2 0).2.1 = 2 ∧
    ¬ match_longest_post (mk_dict [⟨[97], [65]⟩, ⟨[98, 99], [66]⟩] (fun _ => 0)) [97] 2 0 := by
  refine ⟨by decide, by decide, by decide, ?_⟩
  intro h
  have h1 := (h.2 [65] (by decide)).2.1
  revert h1
  decide

theorem all_lengths_nil (w : List Nat) (len : Nat) : all_lengths [] w len = [] := by
  induction len with
  | zero => rfl
  | succ n ih => simp [all_lengths, value_of, ih]

theorem dict_text_get_all_match_lengths_frame (td : text_dictionary) (W : List Nat)
    (ml : Nat → Nat) :
    (dict_text_get_all_match_lengths td W ml).2.2.lexicon = td.lexicon ∧
    (dict_text_get_all_match_lengths td W ml).2.2.max_length = td.max_length := by
  unfold dict_text_get_all_match_lengths
  split <;> simp

theorem dict_text_get_all_match_lengths_eq (td : text_dictionary) (W : List Nat)
    (ml : Nat → Nat) (hs : lexicon_sorted td.lexicon) :
    (dict_text_get_all_match_lengths td W ml).1 =
      (all_lengths td.lexicon W (min (ucs4len W) td.max_length)).length ∧
    (dict_text_get_all_match_lengths td W ml).2.1 =
      store ml 0 (all_lengths td.lexicon W (min (ucs4len W) td.max_length)) := by
  unfold dict_text_get_all_match_lengths
  by_cases he : td.entry_count = 0
  · have hl : td.lexicon = [] := List.length_eq_zero.1 he
    simp only [he, if_true, hl, all_lengths_nil, List.length_nil, true_and]
    funext j; simp [store]
  · simp only [he, if_false, ite_lt_eq_min]
    have hle : min (ucs4len W) td.max_length ≤ ucs4len W := by omega
    have := all_match_loop_eq td.lexicon hs W _
      (upd (ucs4ncpy td.word_buff W (min (ucs4len W) td.max_length))
        (min (ucs4len W) td.max_length) 0) ml 0 hle (ucs4ncpy_spec _ _ _ hle)
    exact ⟨by rw [this.2]; omega, this.1⟩

theorem range_map_store (ml : Nat → Nat) (l : List Nat) :
    (List.range l.length).map (store ml 0 l) = l := by
  apply List.ext_getElem
  · simp
  · intro i h1 h2
    simp at h1
    simp [store, h1, List.getD_eq_getElem?_getD, List.getElem?_eq_getElem h1]

/-- C2: for a dictionary sorted by key with unique keys and a word `W`,
`dict_text_get_all_match_lengths` writes exactly the set of lengths `k` in
`[1, min(max_key_length, length(W))]` whose prefix `W[0..k]` is a key, each
once, in strictly descending order, and returns the number of lengths
written. -/
theorem dict_text_get_all_match_lengths_correct (td : text_dictionary) (W : List Nat)
    (ml : Nat → Nat) (hs : lexicon_sorted td.lexicon) :
    all_match_lengths_post td W ml := by
  unfold all_match_lengths_post
  obtain ⟨h1, h2⟩ := dict_text_get_all_match_lengths_eq td W ml hs
  simp only []
  rw [h1, h2, range_map_store, Nat.min_comm td.max_length]
  refine ⟨fun k => mem_all_lengths _ _ _ k, all_lengths_desc _ _ _, ?_⟩
  intro j hj
  have : ¬ (0 ≤ j ∧ j < 0 + (all_lengths td.lexicon W (min (ucs4len W) td.max_length)).length) := by
    omega
  simp only [store, this, if_false]

/-- C2, witness: the dictionary {"a" -> "Z", "ab" -> "X", "abc" -> "Y"} and the
word "abcd". -/
theorem dict_text_get_all_match_lengths_correct_witness :
    lexicon_sorted (mk_dict [⟨[97], [90]⟩, ⟨[97, 98], [88]⟩, ⟨[97, 98, 99], [89]⟩]
      (fun _ => 0)).lexicon ∧
    all_match_lengths_post
      (mk_dict [⟨[97], [90]⟩, ⟨[97, 98], [88]⟩, ⟨[97, 98, 99], [89]⟩] (fun _ => 0))
      [97, 98, 99, 100] (fun _ => 7) :=
  ⟨by decide, dict_text_get_all_match_lengths_correct _ _ _ (by decide)⟩

/-- C4 as stated fails: on scenario S3 (dictionary {"a" -> "A", "ab" -> "P",
"b" -> "B", "bc" -> "Q", "c" -> "C"}, input "abc", capacity 10) the conversion
consumes 3 code points and does not output "PC". -/
theorem segment_tie_break_counterexample :
    (segment 2147483647 0 [97, 98, 99]
      (mk_state (mk_dict [⟨[97], [65]⟩, ⟨[97, 98], [80]⟩, ⟨[98], [66]⟩, ⟨[98, 99], [81]⟩,
        ⟨[99], [67]⟩] (fun _ => 0)) (fun _ => 0) 3 10)).map (fun p => (p.1, p.2.out)) ≠
    some (3, [80, 67]) := by
  decide

/-- Scenario S3 evaluated (dictionary {"a" -> "A", "ab" -> "P", "b" -> "B",
"bc" -> "Q", "c" -> "C"}, input "abc", capacity 10, clean scratch buffers): the
two segmentations with two segments tie, and the conversion emits the one whose
two-code-point key starts later, `a|bc`: it outputs "AQ", consumes 3 and
reports no error. -/
theorem segment_tie_break_scenario :
    observe (segment 2147483647 0 [97, 98, 99]
      (mk_state (mk_dict [⟨[97], [65]⟩, ⟨[97, 98], [80]⟩, ⟨[98], [66]⟩, ⟨[98, 99], [81]⟩,
        ⟨[99], [67]⟩] (fun _ => 0)) (fun _ => 0) 3 10)) =
    some (3, [65, 81], 3, 0, 8, converter_error.CONVERTER_ERROR_VOID) := by
  decide

/-- C7, the code at the failing input: with the dictionary {"abc" -> "P",
"cd" -> "Q"}, the input "abcd" and an output capacity of 1, the conversion
writes the two code points "Pd" and leaves `*outbuf_left` at `2 ^ 64 - 1`. -/
theorem segment_verbatim_overflow :
    lexicon_sorted [⟨[97, 98, 99], [80]⟩, ⟨[99, 100], [81]⟩] ∧
    observe (segment 2147483647 0 [97, 98, 99, 100]
      (mk_state (mk_dict [⟨[97, 98, 99], [80]⟩, ⟨[99, 100], [81]⟩] (fun _ => 0))
        (fun _ => 0) 4 1)) =
    some (4, [80, 100], 4, 0, 2 ^ 64 - 1, converter_error.CONVERTER_ERROR_VOID) := by
  decide

/-- C8, the code at the failing input: with the dictionary {"a" -> "A",
"b" -> "BB"}, the input "ab" and an output capacity of 2, the conversion
returns `(size_t) -1` with `errnum = CONVERTER_ERROR_OUTBUF` although it has
consumed "a" and emitted "A". -/
theorem segment_error_after_progress :
    lexicon_sorted [⟨[97], [65]⟩, ⟨[98], [66, 66]⟩] ∧
    observe (segment 2147483647 0 [97, 98]
      (mk_state (mk_dict [⟨[97], [65]⟩, ⟨[98], [66, 66]⟩] (fun _ => 0)) (fun _ => 0) 2 2)) =
    some (SIZE_MAX, [65], 1, 1, 1, converter_error.CONVERTER_ERROR_OUTBUF) := by
  decide

/-- C10, the code at the failing input: with the dictionary {"a" -> "A",
"b" -> "BCD"}, whose longest value has 3 code points, the input "aab" and an
output capacity of 3, the conversion fails with
`errnum = CONVERTER_ERROR_OUTBUF`. -/
theorem segment_not_recoverable :
    lexicon_sorted [⟨[97], [65]⟩, ⟨[98], [66, 67, 68]⟩] ∧
    observe (segment 2147483647 0 [97, 97, 98]
      (mk_state (mk_dict [⟨[97], [65]⟩, ⟨[98], [66, 67, 68]⟩] (fun _ => 0)) (fun _ => 0) 3 3)) =
    some (SIZE_MAX, [65, 65], 2, 1, 1, converter_error.CONVERTER_ERROR_OUTBUF) := by
  decide

theorem sp_seg_relax_eq (i : Nat) (L : List Nat) (j : Nat) (b : opencc_sp_seg_buffer)
    (hL : ∀ t, t < L.length → b.match_length (j + t) = L.getD t 0) :
    (sp_seg_relax i L.length j b).min_len = (L.foldl (relax1 i) (b.min_len, b.parent)).1 ∧
    (sp_seg_relax i L.length j b).parent = (L.foldl (relax1 i) (b.min_len, b.parent)).2 ∧
    (sp_seg_relax i L.length j b).match_length =
      (fun x => if j ≤ x ∧ x < j + L.length then 0 else b.match_length x) ∧
    (sp_seg_relax i L.length j b).path = b.path ∧
    (sp_seg_relax i L.length j b).buffer_size = b.buffer_size ∧
    (sp_seg_relax i L.length j b).initialized = b.initialized := by
  induction L generalizing j b with
  | nil =>
    simp only [List.length_nil, sp_seg_relax, List.foldl_nil, true_and, and_true]
    funext x
    have : ¬ (j ≤ x ∧ x < j) := by omega
    simp [this]
  | cons k ks ih =>
    have hk : b.match_length j = k := by simpa using hL 0 (by simp)
    simp only [List.length_cons, sp_seg_relax, List.foldl_cons, hk]
    have hstep : ∀ b2 : opencc_sp_seg_buffer,
        b2.match_length = upd b.match_length j 0 →
        (b2.min_len, b2.parent) = relax1 i (b.min_len, b.parent) k →
        b2.path = b.path → b2.buffer_size = b.buffer_size → b2.initialized = b.initialized →
        (sp_seg_relax i ks.length (j + 1) b2).min_len =
          (ks.foldl (relax1 i) (relax1 i (b.min_len, b.parent) k)).1 ∧
        (sp_seg_relax i ks.length (j + 1) b2).parent =
          (ks.foldl (relax1 i) (relax1 i (b.min_len, b.parent) k)).2 ∧
        (sp_seg_relax i ks.length (j + 1) b2).match_length =
          (fun x => if j ≤ x ∧ x < j + (ks.length + 1) then 0 else b.match_length x) ∧
        (sp_seg_relax i ks.length (j + 1) b2).path = b.path ∧
        (sp_seg_relax i ks.length (j + 1) b2).buffer_size = b.buffer_size ∧
        (sp_seg_relax i ks.length (j + 1) b2).initialized = b.initialized := by
      intro b2 hm hr hp hb hi
      have hL2 : ∀ t, t < ks.length → b2.match_length (j + 1 + t) = ks.getD t 0 := by
        intro t ht
        rw [hm]
        have := hL (t + 1) (by simp; omega)
        simp only [upd, show j + 1 + t ≠ j by omega, if_false]
        rw [show j + 1 + t = j + (t + 1) by omega, this]
        simp [List.getD_eq_getElem?_getD]
      obtain ⟨h1, h2, h3, h4, h5, h6⟩ := ih (j + 1) b2 hL2
      rw [h1, h2, h3, h4, h5, h6, ← hr, hp, hb, hi]
      refine ⟨rfl, rfl, ?_, rfl, rfl, rfl⟩
      funext x
      rw [hm]
      simp only [upd]
      by_cases hx : x = j
      · subst hx
        have h1 : ¬ (x + 1 ≤ x ∧ x < x + 1 + ks.length) := by omega
        have h2 : x ≤ x ∧ x < x + (ks.length + 1) := by omega
        simp [h1, h2]
      · by_cases hx2 : j + 1 ≤ x ∧ x < j + 1 + ks.length
        · have h2 : j ≤ x ∧ x < j + (ks.length + 1) := by omega
          simp [hx2, h2]
        · have h2 : ¬ (j ≤ x ∧ x < j + (ks.length + 1)) := by omega
          simp [hx2, h2, hx]
    apply hstep
    · split <;> [rfl; (split <;> rfl)]
    · simp only [relax1]
      by_cases h1 : 1 < k ∧ size_succ (b.min_len i) ≤ b.min_len (i + k)
      · simp [h1]
      · by_cases h2 : k = 1 ∧ size_succ (b.min_len i) < b.min_len (i + k)
        · obtain ⟨h3, h4⟩ := h2
          subst h3
          simp [h4]
        · simp [h1, h2]
    · split <;> [rfl; (split <;> rfl)]
    · split <;> [rfl; (split <;> rfl)]
    · split <;> [rfl; (split <;> rfl)]

theorem store_head (ml : Nat → Nat) (E : List Nat) : store ml 0 E 0 = E.headD (ml 0) := by
  cases E with
  | nil => simp [store]
  | cons a as => simp [store]

theorem sp_seg_dp_step_eq (inp : List Nat) (s : conv_state) (i : Nat)
    (hs : lexicon_sorted s.dicts.lexicon) :
    let L := candidates s.dicts.lexicon s.dicts.max_length (inp.drop (s.inbuf + i))
      (s.sp_seg_buffer.match_length 0)
    let s1 := sp_seg_dp_step inp s i
    s1.sp_seg_buffer.min_len =
      (L.foldl (relax1 i) (s.sp_seg_buffer.min_len, s.sp_seg_buffer.parent)).1 ∧
    s1.sp_seg_buffer.parent =
      (L.foldl (relax1 i) (s.sp_seg_buffer.min_len, s.sp_seg_buffer.parent)).2 ∧
    (∀ x, s1.sp_seg_buffer.match_length x =
      if x < L.length then 0 else s.sp_seg_buffer.match_length x) ∧
    s1.sp_seg_buffer.path = s.sp_seg_buffer.path ∧
    s1.sp_seg_buffer.buffer_size = s.sp_seg_buffer.buffer_size ∧
    s1.sp_seg_buffer.initialized = s.sp_seg_buffer.initialized ∧
    s1.dicts.lexicon = s.dicts.lexicon ∧ s1.dicts.max_length = s.dicts.max_length ∧
    s1.inbuf = s.inbuf ∧ s1.inbuf_left = s.inbuf_left ∧ s1.out = s.out ∧
    s1.outbuf_left = s.outbuf_left ∧ s1.errnum = s.errnum := by
  intro L s1
  obtain ⟨hc, hm⟩ := dict_text_get_all_match_lengths_eq s.dicts (inp.drop (s.inbuf + i))
    s.sp_seg_buffer.match_length hs
  obtain ⟨hf1, hf2⟩ := dict_text_get_all_match_lengths_frame s.dicts (inp.drop (s.inbuf + i))
    s.sp_seg_buffer.match_length
  have hE : all_lengths s.dicts.lexicon (inp.drop (s.inbuf + i))
      (min (ucs4len (inp.drop (s.inbuf + i))) s.dicts.max_length) =
      key_lengths s.dicts.lexicon s.dicts.max_length (inp.drop (s.inbuf + i)) := rfl
  rw [hE] at hc hm
  have hLdef : L = candidates s.dicts.lexicon s.dicts.max_length (inp.drop (s.inbuf + i))
      (s.sp_seg_buffer.match_length 0) := rfl
  simp only [candidates] at hLdef
  generalize key_lengths s.dicts.lexicon s.dicts.max_length (inp.drop (s.inbuf + i)) = E
    at hc hm hLdef
  clear hE
  by_cases h1 : E.headD (s.sp_seg_buffer.match_length 0) ≠ 1
  · have hL : L = E ++ [1] := by rw [hLdef, if_pos h1]
    let b0 : opencc_sp_seg_buffer :=
      { s.sp_seg_buffer with
        match_length := upd (store s.sp_seg_buffer.match_length 0 E) E.length 1 }
    have hs1 : s1.sp_seg_buffer = sp_seg_relax i L.length 0 b0 := by
      simp only [s1, b0, sp_seg_dp_step, dict_get_all_match_lengths, hc, hm, store_head, h1,
        ne_eq, not_false_eq_true, if_true, hL, List.length_append, List.length_singleton]
    have hcells : ∀ t, t < L.length → b0.match_length (0 + t) = L.getD t 0 := by
      intro t ht
      rw [hL] at ht ⊢
      simp only [List.length_append, List.length_singleton] at ht
      simp only [b0, Nat.zero_add, upd, store, List.getD_eq_getElem?_getD]
      by_cases hte : t = E.length
      · simp [hte]
      · have htl : t < E.length := by omega
        simp [hte, htl, List.getElem?_append_left htl]
    obtain ⟨r1, r2, r3, r4, r5, r6⟩ := sp_seg_relax_eq i L 0 b0 hcells
    rw [hs1, r1, r2, r3, r4, r5, r6]
    refine ⟨rfl, rfl, ?_, rfl, rfl, rfl, ?_, ?_, rfl, rfl, rfl, rfl, rfl⟩
    · intro x
      by_cases hx : x < L.length
      · simp [hx]
      · have hx2 : ¬ (0 ≤ x ∧ x < 0 + L.length) := by omega
        rw [hL] at hx
        simp only [List.length_append, List.length_singleton] at hx
        have h3 : ¬ (0 ≤ x ∧ x < 0 + E.length) := by omega
        have h4 : x ≠ E.length := by omega
        simp only [hx2, if_false, b0, upd, store, h3, h4]
        rw [hL]
        simp [hx]
    · simpa [s1, sp_seg_dp_step, dict_get_all_match_lengths] using hf1
    · simpa [s1, sp_seg_dp_step, dict_get_all_match_lengths] using hf2
  · have hL : L = E := by rw [hLdef, if_neg h1]
    let b0 : opencc_sp_seg_buffer :=
      { s.sp_seg_buffer with match_length := store s.sp_seg_buffer.match_length 0 E }
    have hs1 : s1.sp_seg_buffer = sp_seg_relax i L.length 0 b0 := by
      simp only [s1, b0, sp_seg_dp_step, dict_get_all_match_lengths, hc, hm, store_head, h1,
        if_false, hL]
    have hcells : ∀ t, t < L.length → b0.match_length (0 + t) = L.getD t 0 := by
      intro t ht
      rw [hL] at ht ⊢
      simp [b0, store, ht]
    obtain ⟨r1, r2, r3, r4, r5, r6⟩ := sp_seg_relax_eq i L 0 b0 hcells
    rw [hs1, r1, r2, r3, r4, r5, r6]
    refine ⟨rfl, rfl, ?_, rfl, rfl, rfl, ?_, ?_, rfl, rfl, rfl, rfl, rfl⟩
    · intro x
      by_cases hx : x < L.length
      · simp [hx]
      · have hx2 : ¬ (0 ≤ x ∧ x < 0 + L.length) := by omega
        rw [hL] at hx
        have h3 : ¬ (0 ≤ x ∧ x < 0 + E.length) := by omega
        simp only [hx2, if_false, b0, store, h3]
        rw [hL]; simp [hx]
    · simpa [s1, sp_seg_dp_step, dict_get_all_match_lengths] using hf1
    · simpa [s1, sp_seg_dp_step, dict_get_all_match_lengths] using hf2

theorem candidates_stale (lex : List opencc_entry) (M : Nat) (w : List Nat) (ml0 : Nat)
    (h : ml0 ≠ 1 ∨ key_lengths lex M w ≠ []) :
    candidates lex M w ml0 = candidates lex M w 0 := by
  unfold candidates
  cases hE : key_lengths lex M w with
  | nil =>
    rcases h with h | h
    · simp [h]
    · exact absurd hE h
  | cons a as => simp

theorem one_mem_candidates (lex : List opencc_entry) (M : Nat) (w : List Nat) :
    1 ∈ candidates lex M w 0 := by
  unfold candidates
  cases hE : key_lengths lex M w with
  | nil => simp
  | cons a as =>
    by_cases ha : a = 1
    · simp [ha]
    · simp [ha]

theorem mem_candidates (lex : List opencc_entry) (M : Nat) (w : List Nat) (k : Nat) :
    k ∈ candidates lex M w 0 ↔ k = 1 ∨ k ∈ key_lengths lex M w := by
  constructor
  · intro h
    unfold candidates at h
    split at h
    · rcases List.mem_append.1 h with h | h
      · exact Or.inr h
      · exact Or.inl (by simpa using h)
    · exact Or.inr h
  · rintro (rfl | h)
    · exact one_mem_candidates lex M w
    · unfold candidates
      split
      · exact List.mem_append_left _ h
      · exact h

theorem mem_key_lengths (lex : List opencc_entry) (M : Nat) (w : List Nat) (k : Nat) :
    k ∈ key_lengths lex M w ↔ 1 ≤ k ∧ k ≤ ucs4len w ∧ k ≤ M ∧ is_key lex (w.take k) := by
  unfold key_lengths
  rw [mem_all_lengths]
  constructor
  · rintro ⟨h1, h2, h3⟩; exact ⟨h1, by omega, by omega, h3⟩
  · rintro ⟨h1, h2, h3, h4⟩; exact ⟨h1, by omega, h4⟩

theorem sp_seg_dp_eq (inp : List Nat) (n i : Nat) (s : conv_state)
    (hs : lexicon_sorted s.dicts.lexicon)
    (h0 : s.sp_seg_buffer.match_length 0 ≠ 1 ∨
      key_lengths s.dicts.lexicon s.dicts.max_length (inp.drop (s.inbuf + i)) ≠ []) :
    let s1 := sp_seg_dp inp n i s
    (s1.sp_seg_buffer.min_len, s1.sp_seg_buffer.parent) =
      dp_fold (window_cands s.dicts.lexicon s.dicts.max_length inp s.inbuf) n i
        (s.sp_seg_buffer.min_len, s.sp_seg_buffer.parent) ∧
    (1 ≤ n → s1.sp_seg_buffer.match_length 0 = 0) ∧
    s1.sp_seg_buffer.path = s.sp_seg_buffer.path ∧
    s1.sp_seg_buffer.buffer_size = s.sp_seg_buffer.buffer_size ∧
    s1.sp_seg_buffer.initialized = s.sp_seg_buffer.initialized ∧
    s1.dicts.lexicon = s.dicts.lexicon ∧ s1.dicts.max_length = s.dicts.max_length ∧
    s1.inbuf = s.inbuf ∧ s1.inbuf_left = s.inbuf_left ∧ s1.out = s.out ∧
    s1.outbuf_left = s.outbuf_left ∧ s1.errnum = s.errnum := by
  induction n generalizing i s with
  | zero =>
    intro s1
    show (_ ∧ _ ∧ _ ∧ _ ∧ _ ∧ _ ∧ _ ∧ _ ∧ _ ∧ _ ∧ _ ∧ _)
    exact ⟨rfl, fun h => absurd h (by omega), rfl, rfl, rfl, rfl, rfl, rfl, rfl, rfl, rfl, rfl⟩
  | succ n ih =>
    intro s1
    obtain ⟨a1, a2, a3, a4, a5, a6, a7, a8, a9, a10, a11, a12, a13⟩ := sp_seg_dp_step_eq inp s i hs
    rw [candidates_stale _ _ _ _ h0] at a1 a2 a3
    have hL := one_mem_candidates s.dicts.lexicon s.dicts.max_length (inp.drop (s.inbuf + i))
    have hLpos : 0 < (candidates s.dicts.lexicon s.dicts.max_length
        (inp.drop (s.inbuf + i)) 0).length := List.length_pos_of_mem hL
    have hz : (sp_seg_dp_step inp s i).sp_seg_buffer.match_length 0 = 0 := by
      rw [a3 0]; simp [hLpos]
    have hs' : lexicon_sorted (sp_seg_dp_step inp s i).dicts.lexicon := by rw [a7]; exact hs
    obtain ⟨b1, b2, b3, b4, b5, b6, b7, b8, b9, b10, b11, b12⟩ :=
      ih (i + 1) (sp_seg_dp_step inp s i) hs' (Or.inl (by rw [hz]; omega))
    simp only [s1, sp_seg_dp, dp_fold]
    rw [b1, b3, b4, b5, b6, b7, b8, b9, b10, b11, b12, a4, a5, a6, a7, a8, a9, a10, a11, a12, a13]
    refine ⟨?_, ?_, rfl, rfl, rfl, rfl, rfl, rfl, rfl, rfl, rfl, rfl⟩
    · have : ((sp_seg_dp_step inp s i).sp_seg_buffer.min_len,
          (sp_seg_dp_step inp s i).sp_seg_buffer.parent) =
          List.foldl (relax1 i) (s.sp_seg_buffer.min_len, s.sp_seg_buffer.parent)
            (window_cands s.dicts.lexicon s.dicts.max_length inp s.inbuf i) := by
        rw [a1, a2]; rfl
      rw [this]
    · intro _
      by_cases hn : 1 ≤ n
      · exact b2 hn
      · have : n = 0 := by omega
        subst this
        simpa [sp_seg_dp] using hz

theorem relax1_cases (i k : Nat) (st : (Nat → Nat) × (Nat → Nat)) :
    relax1 i st k = st ∨
    (relax1 i st k = (upd st.1 (i + k) (size_succ (st.1 i)), upd st.2 (i + k) i) ∧
      size_succ (st.1 i) ≤ st.1 (i + k)) := by
  unfold relax1
  split
  · rename_i h
    right
    refine ⟨rfl, ?_⟩
    rcases h with h | h
    · exact h.2
    · exact Nat.le_of_lt h.2
  · left; rfl

theorem relax1_le (i k : Nat) (hk : 1 ≤ k) (st : (Nat → Nat) × (Nat → Nat)) :
    (relax1 i st k).1 (i + k) ≤ size_succ (st.1 i) := by
  unfold relax1
  split
  · simp [upd]
  · rename_i h
    simp only [not_or, not_and, not_le, not_lt] at h
    rcases Nat.eq_or_lt_of_le hk with h1 | h1
    · exact h.2 h1.symm
    · exact Nat.le_of_lt (h.1 h1)

theorem foldl_relax1 (i : Nat) (L : List Nat) (hL : ∀ k ∈ L, 1 ≤ k)
    (st : (Nat → Nat) × (Nat → Nat)) :
    (∀ x, x ≤ i → (L.foldl (relax1 i) st).1 x = st.1 x ∧ (L.foldl (relax1 i) st).2 x = st.2 x) ∧
    (∀ x, (L.foldl (relax1 i) st).1 x ≤ st.1 x) ∧
    (∀ k ∈ L, (L.foldl (relax1 i) st).1 (i + k) ≤ size_succ (st.1 i)) ∧
    (∀ x, ((L.foldl (relax1 i) st).1 x = st.1 x ∧ (L.foldl (relax1 i) st).2 x = st.2 x) ∨
      ((L.foldl (relax1 i) st).1 x = size_succ (st.1 i) ∧ (L.foldl (relax1 i) st).2 x = i ∧
        size_succ (st.1 i) ≤ st.1 x ∧ ∃ k ∈ L, x = i + k)) := by
  induction L generalizing st with
  | nil =>
    simp only [List.foldl_nil, List.not_mem_nil, false_imp_iff, implies_true, true_and,
      and_true, and_self, le_refl]
    intro x; left; trivial
  | cons k ks ih =>
    have hk : 1 ≤ k := hL k (List.mem_cons_self _ _)
    have hks : ∀ k' ∈ ks, 1 ≤ k' := fun k' h => hL k' (List.mem_cons_of_mem _ h)
    obtain ⟨i1, i2, i3, i4⟩ := ih hks (relax1 i st k)
    simp only [List.foldl_cons]
    -- facts about the first step
    have hsame : ∀ x, x ≠ i + k → (relax1 i st k).1 x = st.1 x ∧ (relax1 i st k).2 x = st.2 x := by
      intro x hx
      rcases relax1_cases i k st with h | ⟨h, _⟩
      · rw [h]; exact ⟨rfl, rfl⟩
      · rw [h]; simp [upd, hx]
    have hi : (relax1 i st k).1 i = st.1 i := (hsame i (by omega)).1
    have hmono : ∀ x, (relax1 i st k).1 x ≤ st.1 x := by
      intro x
      rcases relax1_cases i k st with h | ⟨h, h'⟩
      · rw [h]
      · rw [h]
        simp only [upd]
        split
        · rename_i hx; rw [hx]; exact h'
        · exact le_refl _
    refine ⟨?_, ?_, ?_, ?_⟩
    · intro x hx
      obtain ⟨a, b⟩ := i1 x hx
      obtain ⟨c, d⟩ := hsame x (by omega)
      exact ⟨a.trans c, b.trans d⟩
    · intro x
      exact le_trans (i2 x) (hmono x)
    · intro k' hk'
      rcases List.mem_cons.1 hk' with rfl | hk'
      · exact le_trans (i2 _) (relax1_le i k' hk st)
      · have := i3 k' hk'
        rwa [hi] at this
    · intro x
      rcases i4 x with ⟨a, b⟩ | ⟨a, b, c, k', hk', hx⟩
      · rcases relax1_cases i k st with h | ⟨h, h'⟩
        · left; rw [a, b, h]; exact ⟨rfl, rfl⟩
        · by_cases hx : x = i + k
          · right
            rw [a, b, h]
            subst hx
            refine ⟨?_, ?_, h', k, List.mem_cons_self _ _, rfl⟩
            · simp [upd]
            · simp [upd]
          · left
            rw [a, b]
            exact hsame x hx
      · right
        rw [hi] at a c
        exact ⟨a, b, le_trans c (hmono x), k', List.mem_cons_of_mem _ hk', hx⟩

theorem reach_inv (cand : Nat → List Nat) (t m : Nat) (h : reach cand t m) :
    (t = 0 ∧ m = 0) ∨ ∃ j k m', t = j + k ∧ m = m' + 1 ∧ reach cand j m' ∧ k ∈ cand j := by
  cases h with
  | zero => left; exact ⟨rfl, rfl⟩
  | step h1 h2 => right; exact ⟨_, _, _, rfl, rfl, h1, h2⟩

theorem size_succ_eq (a : Nat) (h : a < 2 ^ 64 - 1) : size_succ a = a + 1 := by
  unfold size_succ
  exact Nat.mod_eq_of_lt (by omega)

theorem dp_inv_lower (cand : Nat → List Nat) (hc2 : ∀ i, ∀ k ∈ cand i, 1 ≤ k)
    (N INF i : Nat) (st : (Nat → Nat) × (Nat → Nat)) (hinv : dp_inv cand N INF i st)
    (hi : i ≤ N) (m : Nat) (hr : reach cand i m) : st.1 i ≤ m := by
  obtain ⟨h1, _, _, _, h5⟩ := hinv
  rcases reach_inv cand i m hr with ⟨rfl, rfl⟩ | ⟨j, k, m', rfl, rfl, hr', hk⟩
  · omega
  · have := hc2 j k hk
    exact h5 j (by omega) k hk hi m' hr'

theorem dp_inv_step (cand : Nat → List Nat) (hc1 : ∀ i, 1 ∈ cand i)
    (hc2 : ∀ i, ∀ k ∈ cand i, 1 ≤ k) (N INF i : Nat) (hN : N < INF) (hI : INF < 2 ^ 64 - 1)
    (hi : i < N) (st : (Nat → Nat) × (Nat → Nat)) (hinv : dp_inv cand N INF i st) :
    dp_inv cand N INF (i + 1) ((cand i).foldl (relax1 i) st) := by
  have hlow := dp_inv_lower cand hc2 N INF i st hinv (by omega)
  obtain ⟨h1, h2, h3, h4, h5⟩ := hinv
  obtain ⟨f1, f2, f3, f4⟩ := foldl_relax1 i (cand i) (hc2 i) st
  -- facts about the source cell
  have hsrc : st.1 i ≤ i ∧ st.1 i < INF ∧ reach cand i (st.1 i) := by
    rcases Nat.eq_zero_or_pos i with rfl | hpos
    · rw [h1]; exact ⟨le_refl _, by omega, reach.zero⟩
    · have hlt := h4 i hpos (le_refl _) (by omega)
      obtain ⟨_, a, _, _, _, _, b⟩ := h3 i hpos (by omega) hlt
      exact ⟨a, hlt, b⟩
  obtain ⟨hs1, hs2, hs3⟩ := hsrc
  have hd : size_succ (st.1 i) = st.1 i + 1 := size_succ_eq _ (by omega)
  rw [hd] at f3 f4
  refine ⟨?_, ?_, ?_, ?_, ?_⟩
  · rw [(f1 0 (by omega)).1]; exact h1
  · intro t ht1 ht2
    exact le_trans (f2 t) (h2 t ht1 ht2)
  · intro t ht1 ht2 hlt
    rcases f4 t with ⟨a, b⟩ | ⟨a, b, c, k, hk, hx⟩
    · rw [a] at hlt
      obtain ⟨g1, g2, g3, g4, g5, g6, g7⟩ := h3 t ht1 ht2 hlt
      rw [a, b, (f1 (st.2 t) (by omega)).1]
      exact ⟨g1, g2, g3, by omega, g5, g6, g7⟩
    · have hk1 := hc2 i k hk
      rw [a, b, (f1 i (le_refl _)).1]
      refine ⟨by omega, by omega, by omega, by omega, rfl, ?_, ?_⟩
      · rw [hx, Nat.add_sub_cancel_left]; exact hk
      · rw [hx]; exact reach.step hs3 hk
  · intro t ht1 ht2 ht3
    rcases Nat.eq_or_lt_of_le ht2 with rfl | hlt
    · have := f3 1 (hc1 i)
      omega
    · rw [(f1 t (by omega)).1]
      exact h4 t ht1 (by omega) ht3
  · intro j hj k hk hjk m hr
    rcases Nat.eq_or_lt_of_le (Nat.le_of_lt_succ hj) with rfl | hlt
    · have := f3 k hk
      have := hlow m hr
      omega
    · exact le_trans (f2 _) (h5 j hlt k hk hjk m hr)

theorem dp_fold_inv (cand : Nat → List Nat) (hc1 : ∀ i, 1 ∈ cand i)
    (hc2 : ∀ i, ∀ k ∈ cand i, 1 ≤ k) (N INF : Nat) (hN : N < INF) (hI : INF < 2 ^ 64 - 1)
    (n i : Nat) (hni : i + n ≤ N) (st : (Nat → Nat) × (Nat → Nat))
    (hinv : dp_inv cand N INF i st) :
    dp_inv cand N INF (i + n) (dp_fold cand n i st) := by
  induction n generalizing i st with
  | zero => simpa [dp_fold] using hinv
  | succ n ih =>
    simp only [dp_fold]
    have := ih (i + 1) (by omega) _ (dp_inv_step cand hc1 hc2 N INF i hN hI (by omega) st hinv)
    rwa [show i + 1 + n = i + (n + 1) by omega] at this

theorem dp_inv_reset (cand : Nat → List Nat) (N INF : Nat) (ml par : Nat → Nat) :
    dp_inv cand N INF 0
      (upd (fun i => if i ≤ N then INF else ml i) 0 0, upd par 0 0) := by
  refine ⟨by simp [upd], ?_, ?_, ?_, ?_⟩
  · intro t ht1 ht2
    simp [upd, show t ≠ 0 by omega, ht2]
  · intro t ht1 ht2 hlt
    simp [upd, show t ≠ 0 by omega, ht2] at hlt
  · intro t ht1 ht2; omega
  · intro j hj; omega

theorem ucs4len_cons (a : Nat) (l : List Nat) :
    ucs4len (a :: l) = if a = 0 then 0 else ucs4len l + 1 := by
  unfold ucs4len
  by_cases h : a = 0
  · simp [h]
  · simp [h, List.takeWhile_cons]

theorem reach_pos (cand : Nat → List Nat) (hc2 : ∀ i, ∀ k ∈ cand i, 1 ≤ k) (t m : Nat)
    (h : reach cand t m) : m ≤ t := by
  induction h with
  | zero => exact le_refl _
  | step h1 h2 ih => have := hc2 _ _ h2; omega

theorem window_cands_one (lex : List opencc_entry) (M : Nat) (inp : List Nat) (p : Nat) :
    ∀ i, 1 ∈ window_cands lex M inp p i :=
  fun _ => one_mem_candidates _ _ _

theorem window_cands_pos (lex : List opencc_entry) (M : Nat) (inp : List Nat) (p : Nat) :
    ∀ i, ∀ k ∈ window_cands lex M inp p i, 1 ≤ k := by
  intro i k hk
  rcases (mem_candidates _ _ _ _).1 hk with rfl | h
  · exact le_refl _
  · exact ((mem_key_lengths _ _ _ _).1 h).1

theorem sp_seg_table_spec (INF : Nat) (inp : List Nat) (s : conv_state) (N : Nat)
    (hs : lexicon_sorted s.dicts.lexicon) (hNI : N < INF) (hI : INF < 2 ^ 64 - 1)
    (hstale : s.sp_seg_buffer.match_length 0 ≠ 1 ∨
      key_lengths s.dicts.lexicon s.dicts.max_length (inp.drop (s.inbuf + 0)) ≠ []) :
    let s1 := sp_seg_table INF inp s N
    dp_inv (window_cands s.dicts.lexicon s.dicts.max_length inp s.inbuf) N INF N
      (s1.sp_seg_buffer.min_len, s1.sp_seg_buffer.parent) ∧
    (1 ≤ N → s1.sp_seg_buffer.match_length 0 = 0) ∧
    s1.dicts.lexicon = s.dicts.lexicon ∧ s1.dicts.max_length = s.dicts.max_length ∧
    s1.inbuf = s.inbuf ∧ s1.inbuf_left = s.inbuf_left ∧ s1.out = s.out ∧
    s1.outbuf_left = s.outbuf_left ∧ s1.errnum = s.errnum := by
  intro s1
  have key : ∀ ossb1 : opencc_sp_seg_buffer,
      ossb1.match_length = s.sp_seg_buffer.match_length →
      ossb1.min_len = s.sp_seg_buffer.min_len → ossb1.parent = s.sp_seg_buffer.parent →
      let s1 := sp_seg_dp inp N 0 { s with sp_seg_buffer := sp_seg_reset INF ossb1 N }
      dp_inv (window_cands s.dicts.lexicon s.dicts.max_length inp s.inbuf) N INF N
        (s1.sp_seg_buffer.min_len, s1.sp_seg_buffer.parent) ∧
      (1 ≤ N → s1.sp_seg_buffer.match_length 0 = 0) ∧
      s1.dicts.lexicon = s.dicts.lexicon ∧ s1.dicts.max_length = s.dicts.max_length ∧
      s1.inbuf = s.inbuf ∧ s1.inbuf_left = s.inbuf_left ∧ s1.out = s.out ∧
      s1.outbuf_left = s.outbuf_left ∧ s1.errnum = s.errnum := by
    intro ossb1 e1 e2 e3 s1
    have hst : ({ s with sp_seg_buffer := sp_seg_reset INF ossb1 N } : conv_state).sp_seg_buffer.match_length 0 ≠ 1 ∨
        key_lengths ({ s with sp_seg_buffer := sp_seg_reset INF ossb1 N } : conv_state).dicts.lexicon
          ({ s with sp_seg_buffer := sp_seg_reset INF ossb1 N } : conv_state).dicts.max_length
          (inp.drop (({ s with sp_seg_buffer := sp_seg_reset INF ossb1 N } : conv_state).inbuf + 0)) ≠ [] := by
      simpa [sp_seg_reset, e1] using hstale
    obtain ⟨a1, a2, _, _, _, a6, a7, a8, a9, a10, a11, a12⟩ :=
      sp_seg_dp_eq inp N 0 { s with sp_seg_buffer := sp_seg_reset INF ossb1 N } hs hst
    refine ⟨?_, a2, a6, a7, a8, a9, a10, a11, a12⟩
    rw [a1]
    have := dp_fold_inv (window_cands s.dicts.lexicon s.dicts.max_length inp s.inbuf)
      (window_cands_one _ _ _ _) (window_cands_pos _ _ _ _) N INF hNI hI N 0 (by omega)
      _ (dp_inv_reset _ N INF ossb1.min_len ossb1.parent)
    simpa [sp_seg_reset] using this
  have hs1 : s1 = sp_seg_table INF inp s N := rfl
  unfold sp_seg_table at hs1
  by_cases hb : s.sp_seg_buffer.initialized = false ∨ s.sp_seg_buffer.buffer_size < N + 1
  · have := key (sp_seg_set_buffer_size s.sp_seg_buffer (N + 1)) rfl rfl rfl
    simp only [hb, if_true] at hs1
    rw [hs1]; exact this
  · have := key s.sp_seg_buffer rfl rfl rfl
    simp only [hb, if_false] at hs1
    rw [hs1]; exact this

theorem core_eq_iff (s t : conv_state) :
    core s = core t ↔ s.inbuf = t.inbuf ∧ s.inbuf_left = t.inbuf_left ∧ s.out = t.out ∧
      s.outbuf_left = t.outbuf_left ∧ s.errnum = t.errnum ∧
      s.dicts.lexicon = t.dicts.lexicon ∧ s.dicts.max_length = t.dicts.max_length := by
  simp [core]

theorem dict_match_longest_spec (s : conv_state) (w : List Nat) (maxlen ml : Nat)
    (hs : lexicon_sorted s.dicts.lexicon) (hm : maxlen ≤ ucs4len w) :
    (dict_match_longest s w maxlen ml).1 =
      (longest_match s.dicts.lexicon w
        (min (if maxlen = 0 then ucs4len w else maxlen) s.dicts.max_length)).map Prod.fst ∧
    (s.dicts.lexicon ≠ [] → (dict_match_longest s w maxlen ml).2.1 =
      ((longest_match s.dicts.lexicon w
        (min (if maxlen = 0 then ucs4len w else maxlen) s.dicts.max_length)).map Prod.snd).getD 0) ∧
    (s.dicts.lexicon = [] → (dict_match_longest s w maxlen ml).2.1 = ml) ∧
    core (dict_match_longest s w maxlen ml).2.2 = core s ∧
    (dict_match_longest s w maxlen ml).2.2.sp_seg_buffer = s.sp_seg_buffer := by
  obtain ⟨h1, h2⟩ := dict_text_match_longest_eq s.dicts w maxlen ml hs hm
  obtain ⟨f1, f2⟩ := dict_text_match_longest_frame s.dicts w maxlen ml
  refine ⟨h1, h2, ?_, ?_, rfl⟩
  · intro he
    simp [dict_match_longest, dict_text_match_longest, text_dictionary.entry_count, he]
  · rw [core_eq_iff]
    exact ⟨rfl, rfl, rfl, rfl, rfl, f1, f2⟩

theorem dict_match_longest_frame (s : conv_state) (w : List Nat) (maxlen ml : Nat) :
    core (dict_match_longest s w maxlen ml).2.2 = core s ∧
    (dict_match_longest s w maxlen ml).2.2.sp_seg_buffer = s.sp_seg_buffer := by
  obtain ⟨f1, f2⟩ := dict_text_match_longest_frame s.dicts w maxlen ml
  refine ⟨?_, rfl⟩
  rw [core_eq_iff]
  exact ⟨rfl, rfl, rfl, rfl, rfl, f1, f2⟩

theorem value_of_mem (lex : List opencc_entry) (k v : List Nat) (h : value_of lex k = some v) :
    ∃ e ∈ lex, e.key = k ∧ e.value = v := by
  unfold value_of at h
  cases hf : lex.find? (fun e => decide (e.key = k)) with
  | none => rw [hf] at h; simp at h
  | some e =>
    rw [hf] at h
    have h1 := List.mem_of_find?_eq_some hf
    have h2 := List.find?_some hf
    simp only [decide_eq_true_eq] at h2
    exact ⟨e, h1, h2, by simpa using h⟩

theorem longest_match_one (lex : List opencc_entry) (c : Nat) (tl : List Nat) :
    longest_match lex (c :: tl) 1 = (value_of lex [c]).map (fun v => (v, 1)) := by
  simp only [longest_match, List.take_succ_cons, List.take_zero]
  cases value_of lex [c] <;> rfl

theorem sp_seg_one_spec (inp : List Nat) (s : conv_state) (c : Nat) (tl : List Nat)
    (hok : dict_ok s.dicts) (hw : inp.drop s.inbuf = c :: tl) (hc : c ≠ 0)
    (hcap : (piece_out s.dicts.lexicon c).length ≤ s.outbuf_left) :
    (sp_seg_one inp s).1 = 1 ∧
    core (sp_seg_one inp s).2 =
      (s.inbuf + 1, size_sub s.inbuf_left 1, s.out ++ piece_out s.dicts.lexicon c,
        s.outbuf_left - (piece_out s.dicts.lexicon c).length, s.errnum, s.dicts.lexicon,
        s.dicts.max_length) ∧
    (sp_seg_one inp s).2.sp_seg_buffer = s.sp_seg_buffer := by
  have hlen : ucs4len (c :: tl) ≥ 1 := by rw [ucs4len_cons]; simp [hc]
  obtain ⟨h1, _, _, h4, h5⟩ := dict_match_longest_spec s (c :: tl) 1 0 hok.1 hlen
  rw [core_eq_iff] at h4
  obtain ⟨c1, c2, c3, c4, c5, c6, c7⟩ := h4
  simp only [show (1 : Nat) ≠ 0 by omega, if_false] at h1
  -- the lookup result is the value of the single code point
  have hres : (dict_match_longest s (c :: tl) 1 0).1 = value_of s.dicts.lexicon [c] := by
    rw [h1]
    by_cases hM : 1 ≤ s.dicts.max_length
    · rw [Nat.min_eq_left hM, longest_match_one]
      cases value_of s.dicts.lexicon [c] <;> rfl
    · have hM0 : min 1 s.dicts.max_length = 0 := by omega
      rw [hM0]
      simp only [longest_match, Option.map_none']
      cases hv : value_of s.dicts.lexicon [c] with
      | none => rfl
      | some v =>
        obtain ⟨e, he, hek, _⟩ := value_of_mem _ _ _ hv
        have := (hok.2 e he).1
        rw [hek] at this
        simp at this
        omega
  unfold sp_seg_one
  rw [hw]
  simp only []
  cases hv : value_of s.dicts.lexicon [c] with
  | none =>
    rw [hres, hv]
    simp only [piece_out, hv, Option.getD_none, List.length_singleton] at hcap ⊢
    refine ⟨trivial, ?_, ?_⟩
    · have hget : inp.getD s.inbuf 0 = c := by
        have := congrArg (fun l => l.getD 0 0) hw
        simpa [List.getD_eq_getElem?_getD] using this
      simp only [core, emit_verbatim, c1, c2, c3, c4, c5, c6, c7, hget, size_sub, hcap, if_true]
    · simp only [emit_verbatim]; exact h5
  | some v =>
    rw [hres, hv]
    simp only [piece_out, hv, Option.getD_some] at hcap ⊢
    have : ¬ v.length > (dict_match_longest s (c :: tl) 1 0).2.2.outbuf_left := by
      rw [c4]; omega
    simp only [this, if_false]
    refine ⟨trivial, ?_, ?_⟩
    · simp only [core, emit_value, c1, c2, c3, c4, c5, c6, c7, size_sub, hcap, if_true]
    · simp only [emit_value]; exact h5

theorem segment_call_one (INF : Nat) (inp : List Nat) (n0 : Nat) (s : conv_state) (c : Nat)
    (tl : List Nat) (hok : dict_ok s.dicts) (hw : inp.drop s.inbuf = c :: tl) (hc : c ≠ 0)
    (hcap : (piece_out s.dicts.lexicon c).length ≤ s.outbuf_left) :
    segment_call INF inp n0 s 1 = some (Sum.inr (sp_seg_one inp s).2) := by
  obtain ⟨h1, _, _⟩ := sp_seg_one_spec inp s c tl hok hw hc hcap
  unfold segment_call sp_seg
  simp only [if_true]
  rw [show sp_seg_one inp s = ((sp_seg_one inp s).1, (sp_seg_one inp s).2) from rfl, h1]
  simp [SIZE_MAX]

theorem dict_ok_congr (td td' : text_dictionary) (h1 : td'.lexicon = td.lexicon)
    (h2 : td'.max_length = td.max_length) (h : dict_ok td) : dict_ok td' := by
  unfold dict_ok at h ⊢
  rw [h1, h2]; exact h

theorem ucs4len_eq_length (w : List Nat) (hz : ∀ c ∈ w, c ≠ 0) : ucs4len w = w.length := by
  unfold ucs4len
  rw [List.takeWhile_eq_self_iff.2]
  intro c hc
  simpa using hz c hc

theorem longest_match_snd_le (lex : List opencc_entry) (w : List Nat) (L : Nat) :
    ((longest_match lex w L).map Prod.snd).getD 0 ≤ L := by
  cases h : longest_match lex w L with
  | none => simp
  | some p =>
    obtain ⟨v, k⟩ := p
    have := (longest_match_some _ _ _ v k h).2.1
    simpa using this

theorem longest_match_full (lex : List opencc_entry) (w v : List Nat) (L : Nat)
    (hL : 1 ≤ L) (h : value_of lex (w.take L) = some v) :
    longest_match lex w L = some (v, L) := by
  cases L with
  | zero => omega
  | succ n => simp [longest_match, h]

theorem scan_match_le (s : conv_state) (w : List Nat) (u : Nat)
    (hs : lexicon_sorted s.dicts.lexicon) (hne : s.dicts.lexicon ≠ []) (hw : w ≠ [])
    (hz : ∀ c ∈ w, c ≠ 0) :
    1 ≤ (if (dict_match_longest s w 0 u).2.1 = 0 then 1 else (dict_match_longest s w 0 u).2.1) ∧
    (if (dict_match_longest s w 0 u).2.1 = 0 then 1 else (dict_match_longest s w 0 u).2.1)
      ≤ w.length := by
  obtain ⟨_, h2, _, _, _⟩ := dict_match_longest_spec s w 0 u hs (Nat.zero_le _)
  rw [h2 hne]
  simp only [if_true]
  have := longest_match_snd_le s.dicts.lexicon w (min (ucs4len w) s.dicts.max_length)
  rw [ucs4len_eq_length w hz] at this ⊢
  have hpos : 1 ≤ w.length := List.length_pos.2 hw
  split <;> omega

theorem scan_match_key (s : conv_state) (W v : List Nat) (u : Nat) (hok : dict_ok s.dicts)
    (hz : ∀ c ∈ W, c ≠ 0) (hkey : value_of s.dicts.lexicon W = some v) :
    (if (dict_match_longest s W 0 u).2.1 = 0 then 1 else (dict_match_longest s W 0 u).2.1)
      = W.length := by
  obtain ⟨e, he, hek, _⟩ := value_of_mem _ _ _ hkey
  have hne : s.dicts.lexicon ≠ [] := List.ne_nil_of_mem he
  obtain ⟨hM, hnil, _⟩ := hok.2 e he
  rw [hek] at hM hnil
  have hpos : 1 ≤ W.length := List.length_pos.2 hnil
  obtain ⟨_, h2, _, _, _⟩ := dict_match_longest_spec s W 0 u hok.1 (Nat.zero_le _)
  rw [h2 hne]
  simp only [if_true]
  rw [ucs4len_eq_length W hz, Nat.min_eq_left hM,
    longest_match_full _ _ v _ hpos (by rw [List.take_length]; exact hkey)]
  simp only [Option.map_some', Option.getD_some]
  split <;> omega

theorem segment_scan_no_close (INF u : Nat) (inp : List Nat) (n0 B : Nat) :
    ∀ (rest : List Nat) (i : Nat) (s : conv_state), 1 ≤ i → inp.drop i = rest →
      (∀ c ∈ rest, c ≠ 0) → rest.length + i = B →
      lexicon_sorted s.dicts.lexicon → s.dicts.lexicon ≠ [] →
      s.inbuf_left > 0 → s.outbuf_left > 0 →
      ∃ s', segment_scan INF u inp n0 rest i 0 B s = segment_tail INF inp n0 0 B s' ∧
        core s' = core s ∧ s'.sp_seg_buffer = s.sp_seg_buffer := by
  intro rest
  induction rest with
  | nil =>
    intro i s _ _ _ _ _ _ _ _
    exact ⟨s, by simp [segment_scan], rfl, rfl⟩
  | cons c rest' ih =>
    intro i s hi hrest hz hB hs hne hin hout
    have hc : c ≠ 0 := hz c (List.mem_cons_self _ _)
    have hlen : (c :: rest').length = rest'.length + 1 := by simp
    rw [hlen] at hB
    obtain ⟨m1, m2⟩ := scan_match_le s (c :: rest') u hs hne (by simp) hz
    rw [hlen] at m2
    obtain ⟨f1, f2⟩ := dict_match_longest_frame s (c :: rest') 0 u
    have f1' := f1
    simp only [core, Prod.mk.injEq] at f1'
    obtain ⟨g1, g2, g3, g4, g5, g6, g7⟩ := f1'
    have hrest' : inp.drop (i + 1) = rest' := by
      have := congrArg (List.drop 1) hrest
      simpa [List.drop_drop, Nat.add_comm] using this
    obtain ⟨s', h1, h2, h3⟩ := ih (i + 1) (dict_match_longest s (c :: rest') 0 u).2.2 (by omega)
      hrest' (fun c' hc' => hz c' (List.mem_cons_of_mem _ hc')) (by omega)
      (by rw [g6]; exact hs) (by rw [g6]; exact hne) (by rw [g2]; exact hin)
      (by rw [g4]; exact hout)
    refine ⟨s', ?_, h2.trans f1, h3.trans f2⟩
    rw [segment_scan]
    have hcond : c ≠ 0 ∧ s.inbuf_left > 0 ∧ s.outbuf_left > 0 := ⟨hc, hin, hout⟩
    have hnc : ¬ (i ≠ 0 ∧ i = B) := by omega
    simp only [hcond, and_self, if_true, hnc, if_false]
    have hb : ¬ (i + (if (dict_match_longest s (c :: rest') 0 u).2.1 = 0 then 1
        else (dict_match_longest s (c :: rest') 0 u).2.1) > B) := by omega
    simp only [hb, if_false, hc, ne_eq, not_false_eq_true, and_self, if_true]
    exact h1

theorem size_sub_self (a : Nat) : size_sub a a = 0 := by simp [size_sub]

theorem size_sub_zero (a : Nat) : size_sub a 0 = a := by simp [size_sub]

theorem size_sub_le (a b : Nat) (h : b ≤ a) : size_sub a b = a - b := by simp [size_sub, h]

theorem dp_inv_key_window (cand : Nat → List Nat)
    (N INF : Nat) (st : (Nat → Nat) × (Nat → Nat)) (hinv : dp_inv cand N INF N st)
    (hN : 1 ≤ N) (hk : N ∈ cand 0) : st.1 N = 1 ∧ st.2 N = 0 := by
  obtain ⟨h1, h2, h3, h4, h5⟩ := hinv
  have hlt := h4 N hN (le_refl _) (le_refl _)
  obtain ⟨a1, a2, a3, a4, a5, a6, a7⟩ := h3 N hN (le_refl _) hlt
  have hle : st.1 N ≤ 1 := by
    have := h5 0 (by omega) N hk (by omega) 0 reach.zero
    simpa using this
  have h1N : st.1 N = 1 := by omega
  refine ⟨h1N, ?_⟩
  by_contra hp
  have hp1 : 1 ≤ st.2 N := by omega
  have hlt' := h4 (st.2 N) hp1 (by omega) (by omega)
  obtain ⟨b1, _⟩ := h3 (st.2 N) hp1 (by omega) hlt'
  omega

theorem sp_seg_walk_one (parent path : Nat → Nat) (N : Nat) (hN : 1 ≤ N) (hp : parent N = 0) :
    sp_seg_walk parent N N 1 path = some (upd path 0 N) := by
  obtain ⟨n, rfl⟩ : ∃ n, N = n + 1 := ⟨N - 1, by omega⟩
  rw [sp_seg_walk.eq_def]
  simp only [Nat.add_one_ne_zero, if_false, hp, size_sub_self]
  rw [sp_seg_walk.eq_def]
  simp

theorem whole_key_mem (td : text_dictionary) (W v : List Nat) (hok : dict_ok td)
    (hz : ∀ c ∈ W, c ≠ 0) (hkey : value_of td.lexicon W = some v) :
    1 ≤ W.length ∧ W.length ∈ key_lengths td.lexicon td.max_length W := by
  obtain ⟨e, he, hek, _⟩ := value_of_mem _ _ _ hkey
  obtain ⟨hM, hnil, _⟩ := hok.2 e he
  rw [hek] at hM hnil
  have hpos : 1 ≤ W.length := List.length_pos.2 hnil
  refine ⟨hpos, ?_⟩
  rw [mem_key_lengths, ucs4len_eq_length W hz, List.take_length]
  exact ⟨hpos, le_refl _, hM, e, he, hek⟩

theorem sp_seg_whole_key (INF : Nat) (W : List Nat) (s : conv_state) (v : List Nat)
    (hok : dict_ok s.dicts) (hz : ∀ c ∈ W, c ≠ 0) (hin0 : s.inbuf = 0)
    (hleft : s.inbuf_left = W.length) (hkey : value_of s.dicts.lexicon W = some v)
    (hcap : v.length ≤ s.outbuf_left) (hN2 : 2 ≤ W.length) (hNI : W.length < INF)
    (hI : INF < 2 ^ 64 - 1) :
    ∃ s', sp_seg INF W s W.length = some (W.length, s') ∧
      core s' = (W.length, 0, s.out ++ v, s.outbuf_left - v.length, s.errnum,
        s.dicts.lexicon, s.dicts.max_length) := by
  obtain ⟨hpos, hmem⟩ := whole_key_mem s.dicts W v hok hz hkey
  have hstale : s.sp_seg_buffer.match_length 0 ≠ 1 ∨
      key_lengths s.dicts.lexicon s.dicts.max_length (W.drop (s.inbuf + 0)) ≠ [] := by
    right
    rw [hin0]
    exact List.ne_nil_of_mem hmem
  obtain ⟨hinv, _, t1, t2, t3, t4, t5, t6, t7⟩ :=
    sp_seg_table_spec INF W s W.length hok.1 hNI hI hstale
  have hcand : W.length ∈ window_cands s.dicts.lexicon s.dicts.max_length W s.inbuf 0 := by
    unfold window_cands
    rw [mem_candidates, hin0]
    exact Or.inr hmem
  obtain ⟨hm1, hp0⟩ := dp_inv_key_window _ W.length INF _ hinv hpos hcand
  simp only at hm1 hp0
  have hwalk := sp_seg_walk_one (sp_seg_table INF W s W.length).sp_seg_buffer.parent
    (sp_seg_table INF W s W.length).sp_seg_buffer.path W.length hpos hp0
  unfold sp_seg
  have hne1 : W.length ≠ 1 := by omega
  simp only [hne1, if_false, hm1, hwalk]
  -- the single iteration of the emission loop
  generalize hs2 : ({ (sp_seg_table INF W s W.length) with
      sp_seg_buffer := { (sp_seg_table INF W s W.length).sp_seg_buffer with
        path := upd (sp_seg_table INF W s W.length).sp_seg_buffer.path 0 W.length } } :
      conv_state) = s2
  have hc2 : core s2 = core s := by
    rw [← hs2, core_eq_iff]
    exact ⟨t3, t4, t5, t6, t7, t1, t2⟩
  have hp2 : s2.sp_seg_buffer.path 0 = W.length := by rw [← hs2]; simp [upd]
  have hc2' := hc2
  simp only [core, Prod.mk.injEq] at hc2'
  obtain ⟨q1, q2, q3, q4, q5, q6, q7⟩ := hc2'
  have hok2 : dict_ok s2.dicts := dict_ok_congr _ _ q6 q7 hok
  obtain ⟨d1, d2, _, d4, _⟩ := dict_match_longest_spec s2 W W.length 0 hok2.1
    (by rw [ucs4len_eq_length W hz])
  have hne : s2.dicts.lexicon ≠ [] := by
    rw [q6]
    obtain ⟨e, he, _, _⟩ := value_of_mem _ _ _ hkey
    exact List.ne_nil_of_mem he
  have hMle : W.length ≤ s2.dicts.max_length := by
    obtain ⟨e, he, hek, _⟩ := value_of_mem _ _ _ hkey
    rw [q7, ← hek]; exact (hok.2 e he).1
  have hlm : longest_match s2.dicts.lexicon W
      (min (if W.length = 0 then ucs4len W else W.length) s2.dicts.max_length) =
      some (v, W.length) := by
    have h0 : W.length ≠ 0 := by omega
    simp only [h0, if_false, Nat.min_eq_left hMle]
    exact longest_match_full _ _ v _ hpos (by rw [List.take_length, q6]; exact hkey)
  rw [hlm] at d1
  have d2 := d2 hne
  rw [hlm] at d2
  simp only [Option.map_some', Option.getD_some] at d1 d2
  simp only [core, Prod.mk.injEq] at d4
  obtain ⟨r1, r2, r3, r4, r5, r6, r7⟩ := d4
  have hfit : ¬ v.length > (dict_match_longest s2 W W.length 0).2.2.outbuf_left := by
    rw [r4, q4]; omega
  have hemit : sp_seg_emit W (sp_seg_table INF W s W.length).inbuf_left 1 0 0 s2 =
      (W.length, emit_value v W.length (dict_match_longest s2 W W.length 0).2.2) := by
    rw [sp_seg_emit]
    simp only [hp2, size_sub_zero, q1, hin0, List.drop_zero, d1, d2, hfit, if_false, sp_seg_emit]
    simp only [emit_value, r2, q2, t4, hleft, size_sub_self, size_sub_zero]
  refine ⟨_, by rw [hemit], ?_⟩
  simp only [core, emit_value, r1, r2, r3, r4, r5, r6, r7, q1, q2, q3, q4, q5, q6, q7, hleft,
    size_sub_self, size_sub_le _ _ hcap, Nat.zero_add, hin0]

theorem segment_tail_whole_key (INF : Nat) (W : List Nat) (s : conv_state) (v : List Nat)
    (hok : dict_ok s.dicts) (hz : ∀ c ∈ W, c ≠ 0) (hin0 : s.inbuf = 0)
    (hleft : s.inbuf_left = W.length) (hkey : value_of s.dicts.lexicon W = some v)
    (hcap : v.length ≤ s.outbuf_left) (hNI : W.length < INF) (hI : INF < 2 ^ 64 - 1) :
    observe (segment_tail INF W W.length 0 W.length s) =
      some (W.length, s.out ++ v, W.length, 0, s.outbuf_left - v.length, s.errnum) := by
  obtain ⟨hpos, _⟩ := whole_key_mem s.dicts W v hok hz hkey
  obtain ⟨e, he, hek, hev⟩ := value_of_mem _ _ _ hkey
  have hvpos : 1 ≤ v.length := by
    rw [← hev]; exact List.length_pos.2 (hok.2 e he).2.2
  have hcond : s.inbuf_left > 0 ∧ s.outbuf_left > 0 := by omega
  unfold segment_tail
  simp only [hcond, and_self, if_true, size_sub_zero]
  by_cases h1 : W.length = 1
  · -- a window of one code point
    obtain ⟨c, rfl⟩ := List.length_eq_one.1 h1
    have hc : c ≠ 0 := hz c (List.mem_cons_self _ _)
    have hw : [c].drop s.inbuf = c :: [] := by rw [hin0]; rfl
    have hpo : piece_out s.dicts.lexicon c = v := by simp [piece_out, hkey]
    obtain ⟨_, h2, _⟩ := sp_seg_one_spec [c] s c [] hok hw hc (by rw [hpo]; exact hcap)
    have hcall := segment_call_one INF [c] 1 s c [] hok hw hc (by rw [hpo]; exact hcap)
    simp only [List.length_singleton] at hcall ⊢
    rw [hcall]
    simp only [core, Prod.mk.injEq] at h2
    obtain ⟨e1, e2, e3, e4, e5, _, _⟩ := h2
    simp only [observe, Option.map_some', e1, e2, e3, e4, e5, hin0, hleft, hpo,
      List.length_singleton, size_sub_self, size_sub_zero]
  · obtain ⟨s', hs', hc'⟩ := sp_seg_whole_key INF W s v hok hz hin0 hleft hkey hcap
      (by omega) hNI hI
    simp only [core, Prod.mk.injEq] at hc'
    obtain ⟨e1, e2, e3, e4, e5, _, _⟩ := hc'
    have hne : W.length ≠ SIZE_MAX := by unfold SIZE_MAX; omega
    have hne0 : W.length ≠ 0 := by omega
    simp only [segment_call, hs', hne, hne0, if_false, observe, Option.map_some', e1, e2, e3,
      e4, e5, size_sub_zero]

/-- C5 (longest wins): for a dictionary that satisfies the invariants of the
data model and an input `W` without zero code points (`in_left = length(W)`)
that is itself a key with value `v`, single-stage conversion with an output
capacity of at least `length(v)` emits exactly `v` and returns
`consumed = length(W)`, whatever shorter keys are prefixes of `W`.
`INFINITY_INT` exceeds the length of `W`. -/
theorem segment_longest_wins (INFINITY_INT u : Nat) (W : List Nat) (s : conv_state)
    (v : List Nat) (hok : dict_ok s.dicts) (hz : ∀ c ∈ W, c ≠ 0)
    (hleft : s.inbuf_left = W.length) (hkey : value_of s.dicts.lexicon W = some v)
    (hcap : v.length ≤ s.outbuf_left) (hNI : W.length < INFINITY_INT)
    (hI : INFINITY_INT < 2 ^ 64 - 1) :
    observe (segment INFINITY_INT u W s) =
      some (W.length, s.out ++ v, W.length, 0, s.outbuf_left - v.length, s.errnum) := by
  obtain ⟨hpos, _⟩ := whole_key_mem s.dicts W v hok hz hkey
  obtain ⟨e, he, hek, hev⟩ := value_of_mem _ _ _ hkey
  have hne : s.dicts.lexicon ≠ [] := List.ne_nil_of_mem he
  have hvpos : 1 ≤ v.length := by
    rw [← hev]; exact List.length_pos.2 (hok.2 e he).2.2
  unfold OpenCC.segment
  cases hW : W with
  | nil => rw [hW] at hpos; simp at hpos
  | cons c rest =>
    rw [← hW]
    have hc : c ≠ 0 := hz c (by rw [hW]; exact List.mem_cons_self _ _)
    have hml := scan_match_key { s with inbuf := 0 } W v u hok hz hkey
    obtain ⟨f1, f2⟩ := dict_match_longest_frame { s with inbuf := 0 } W 0 u
    have f1' := f1
    simp only [core, Prod.mk.injEq] at f1'
    obtain ⟨g1, g2, g3, g4, g5, g6, g7⟩ := f1'
    obtain ⟨s', h1, h2, _⟩ := segment_scan_no_close INFINITY_INT u W s.inbuf_left W.length rest 1
      (dict_match_longest { s with inbuf := 0 } W 0 u).2.2 (le_refl _) (by rw [hW]; rfl)
      (fun c' hc' => hz c' (by rw [hW]; exact List.mem_cons_of_mem _ hc'))
      (by rw [hW]; simp) (by rw [g6]; exact hok.1) (by rw [g6]; exact hne)
      (by rw [g2]; show s.inbuf_left > 0; omega) (by rw [g4]; show s.outbuf_left > 0; omega)
    have hstep : segment_scan INFINITY_INT u W s.inbuf_left W 0 0 0 { s with inbuf := 0 } =
        segment_scan INFINITY_INT u W s.inbuf_left rest 1 0 W.length
          (dict_match_longest { s with inbuf := 0 } W 0 u).2.2 := by
      conv_lhs => rw [hW, segment_scan]
      have hcond : c ≠ 0 ∧ s.inbuf_left > 0 ∧ s.outbuf_left > 0 := ⟨hc, by omega, by omega⟩
      rw [← hW]
      simp only [hcond, and_self, if_true, ne_eq, not_true_eq_false, false_and, if_false, hml,
        Nat.zero_add, gt_iff_lt, hpos, Nat.lt_of_lt_of_le Nat.zero_lt_one hpos]
      simp
    rw [hstep, h1, hleft]
    have hcs : core s' = core ({ s with inbuf := 0 } : conv_state) := h2.trans f1
    simp only [core, Prod.mk.injEq] at hcs
    obtain ⟨k1, k2, k3, k4, k5, k6, k7⟩ := hcs
    have := segment_tail_whole_key INFINITY_INT W s' v (dict_ok_congr _ _ k6 k7 hok) hz k1
      (by rw [k2]; exact hleft) (by rw [k6]; exact hkey) (by rw [k4]; exact hcap) hNI hI
    rw [this, k3, k4, k5]

/-- C5, witness: scenario S2, the dictionary {"a" -> "Z", "ab" -> "X",
"abc" -> "Y"} on the input "abc" with capacity 1. -/
theorem segment_longest_wins_witness :
    observe (segment 2147483647 0 [97, 98, 99]
      (mk_state (mk_dict [⟨[97], [90]⟩, ⟨[97, 98], [88]⟩, ⟨[97, 98, 99], [89]⟩] (fun _ => 0))
        (fun _ => 0) 3 1)) =
    some (3, [89], 3, 0, 0, converter_error.CONVERTER_ERROR_VOID) :=
  segment_longest_wins 2147483647 0 [97, 98, 99]
    (mk_state (mk_dict [⟨[97], [90]⟩, ⟨[97, 98], [88]⟩, ⟨[97, 98, 99], [89]⟩] (fun _ => 0))
      (fun _ => 0) 3 1) [89]
    (by decide) (by decide) (by decide) (by decide) (by decide) (by decide) (by decide)

/-- Scenario S5: the dictionary {"ab" -> "XYZ"} on the input "ab" fails with
`OutputFull` and nothing consumed for an output capacity of 2, and emits "XYZ"
with `consumed = 2` for a capacity of 3. -/
theorem segment_scenario_s5 :
    observe (segment 2147483647 0 [97, 98]
      (mk_state (mk_dict [⟨[97, 98], [88, 89, 90]⟩] (fun _ => 0)) (fun _ => 0) 2 2)) =
      some (SIZE_MAX, [], 0, 2, 2, converter_error.CONVERTER_ERROR_OUTBUF) ∧
    observe (segment 2147483647 0 [97, 98]
      (mk_state (mk_dict [⟨[97, 98], [88, 89, 90]⟩] (fun _ => 0)) (fun _ => 0) 2 3)) =
      some (2, [88, 89, 90], 2, 0, 0, converter_error.CONVERTER_ERROR_VOID) := by
  constructor <;> decide

theorem dict_match_longest_eval (s : conv_state) (w : List Nat) (maxlen ml : Nat)
    (lex : List opencc_entry) (M : Nat) (v : List Nat) (k : Nat)
    (hs : lexicon_sorted lex) (hlex : s.dicts.lexicon = lex) (hM : s.dicts.max_length = M)
    (hm : maxlen ≤ ucs4len w)
    (hv : longest_match lex w (min (if maxlen = 0 then ucs4len w else maxlen) M) = some (v, k)) :
    (dict_match_longest s w maxlen ml).1 = some v ∧ (dict_match_longest s w maxlen ml).2.1 = k := by
  obtain ⟨h1, h2, _⟩ := dict_match_longest_spec s w maxlen ml (by rw [hlex]; exact hs) hm
  rw [hlex, hM, hv] at h1 h2
  obtain ⟨_, _, k3, _⟩ := longest_match_some _ _ _ v k hv
  obtain ⟨e, he, _, _⟩ := value_of_mem _ _ _ k3
  have hne : lex ≠ [] := List.ne_nil_of_mem he
  exact ⟨by simpa using h1, by simpa using h2 hne⟩

theorem segment_scan_open (INF u : Nat) (inp : List Nat) (n0 : Nat) (c : Nat) (rest : List Nat)
    (i start bound : Nat) (s : conv_state) (hc : c ≠ 0) (hin : s.inbuf_left > 0)
    (hout : s.outbuf_left > 0) (hopen : ¬ (i ≠ 0 ∧ i = bound)) :
    segment_scan INF u inp n0 (c :: rest) i start bound s =
      segment_scan INF u inp n0 rest (i + 1) start
        (if i + (if (dict_match_longest s (c :: rest) 0 u).2.1 = 0 then 1
            else (dict_match_longest s (c :: rest) 0 u).2.1) > bound then
          i + (if (dict_match_longest s (c :: rest) 0 u).2.1 = 0 then 1
            else (dict_match_longest s (c :: rest) 0 u).2.1) else bound)
        (dict_match_longest s (c :: rest) 0 u).2.2 := by
  rw [segment_scan, if_pos ⟨hc, hin, hout⟩, if_neg hopen]

theorem segment_scan_s3 (INF u : Nat) (s : conv_state) (hlex : s.dicts.lexicon = lexicon_s3)
    (hM : s.dicts.max_length = 2) (hin : s.inbuf_left > 0) (hout : s.outbuf_left > 0) :
    ∃ s', segment_scan INF u [97, 98, 99] 3 [97, 98, 99] 0 0 0 s =
        segment_tail INF [97, 98, 99] 3 0 3 s' ∧
      core s' = core s ∧ s'.sp_seg_buffer = s.sp_seg_buffer := by
  have hsort : lexicon_sorted lexicon_s3 := by decide
  -- position 0
  obtain ⟨_, a2⟩ := dict_match_longest_eval s [97, 98, 99] 0 u lexicon_s3 2 [80] 2 hsort hlex hM
    (Nat.zero_le _) (by decide)
  obtain ⟨f1, f2⟩ := dict_match_longest_frame s [97, 98, 99] 0 u
  rw [segment_scan_open INF u _ 3 97 [98, 99] 0 0 0 s (by decide) hin hout (by omega), a2]
  generalize (dict_match_longest s [97, 98, 99] 0 u).2.2 = s1 at f1 f2 ⊢
  have f1' := f1
  simp only [core, Prod.mk.injEq] at f1'
  obtain ⟨c1, c2, c3, c4, c5, c6, c7⟩ := f1'
  -- position 1
  obtain ⟨_, b2⟩ := dict_match_longest_eval s1 [98, 99] 0 u lexicon_s3 2 [81] 2 hsort
    (by rw [c6, hlex]) (by rw [c7, hM]) (Nat.zero_le _) (by decide)
  obtain ⟨g1, g2⟩ := dict_match_longest_frame s1 [98, 99] 0 u
  rw [segment_scan_open INF u _ 3 98 [99] (0 + 1) 0 _ s1 (by decide) (by rw [c2]; exact hin)
    (by rw [c4]; exact hout) (by decide), b2]
  generalize (dict_match_longest s1 [98, 99] 0 u).2.2 = s2 at g1 g2 ⊢
  have g1' := g1
  simp only [core, Prod.mk.injEq] at g1'
  obtain ⟨d1, d2, d3, d4, d5, d6, d7⟩ := g1'
  -- position 2
  obtain ⟨_, e2⟩ := dict_match_longest_eval s2 [99] 0 u lexicon_s3 2 [67] 1 hsort
    (by rw [d6, c6, hlex]) (by rw [d7, c7, hM]) (Nat.zero_le _) (by decide)
  obtain ⟨k1, k2⟩ := dict_match_longest_frame s2 [99] 0 u
  rw [segment_scan_open INF u _ 3 99 [] (0 + 1 + 1) 0 _ s2 (by decide)
    (by rw [d2, c2]; exact hin) (by rw [d4, c4]; exact hout) (by decide), e2]
  refine ⟨(dict_match_longest s2 [99] 0 u).2.2, ?_, (k1.trans g1).trans f1,
    (k2.trans g2).trans f2⟩
  rw [segment_scan]
  rfl

theorem relax1_fire (i k : Nat) (st : (Nat → Nat) × (Nat → Nat)) (d : Nat)
    (hd : size_succ (st.1 i) = d)
    (h : (1 < k ∧ d ≤ st.1 (i + k)) ∨ (k = 1 ∧ d < st.1 (i + k))) :
    relax1 i st k = (upd st.1 (i + k) d, upd st.2 (i + k) i) := by
  unfold relax1
  rw [hd, if_pos h]

theorem relax1_skip (i k : Nat) (st : (Nat → Nat) × (Nat → Nat)) (d : Nat)
    (hd : size_succ (st.1 i) = d)
    (h : ¬ ((1 < k ∧ d ≤ st.1 (i + k)) ∨ (k = 1 ∧ d < st.1 (i + k)))) :
    relax1 i st k = st := by
  unfold relax1
  rw [hd, if_neg h]

theorem relax1_one_idem (i : Nat) (st : (Nat → Nat) × (Nat → Nat)) :
    relax1 i (relax1 i st 1) 1 = relax1 i st 1 := by
  by_cases h : size_succ (st.1 i) < st.1 (i + 1)
  · rw [relax1_fire i 1 st _ rfl (Or.inr ⟨rfl, h⟩)]
    rw [relax1_skip i 1 _ (size_succ (st.1 i)) (by simp [upd]) (by simp [upd])]
  · rw [relax1_skip i 1 st _ rfl (by simp only [Nat.lt_irrefl, false_and, true_and, false_or]; exact h)]
    rw [relax1_skip i 1 st _ rfl (by simp only [Nat.lt_irrefl, false_and, true_and, false_or]; exact h)]

theorem dp_fold_s3 (INF : Nat) (hN : 3 < INF) (hI : INF < 2 ^ 64 - 1) (ml par : Nat → Nat)
    (cand : Nat → List Nat) (h0 : cand 0 = [2, 1, 1]) (h1 : cand 1 = [2, 1, 1])
    (h2 : cand 2 = [1]) :
    (dp_fold cand 3 0 (upd (fun i => if i ≤ 3 then INF else ml i) 0 0, upd par 0 0)).1 3 = 2 ∧
    (dp_fold cand 3 0 (upd (fun i => if i ≤ 3 then INF else ml i) 0 0, upd par 0 0)).2 3 = 1 ∧
    (dp_fold cand 3 0 (upd (fun i => if i ≤ 3 then INF else ml i) 0 0, upd par 0 0)).2 1 = 0 := by
  simp only [dp_fold, h0, h1, h2, List.foldl_cons, List.foldl_nil, relax1_one_idem]
  -- position 0, the keys "ab" and "a" and the fallback
  rw [relax1_fire 0 2 _ 1 (by simp [upd, size_succ]) (by simp [upd]; omega)]
  rw [relax1_fire 0 1 _ 1 (by simp [upd, size_succ]) (by simp [upd]; omega)]
  -- position 1, the keys "bc" and "b" and the fallback
  rw [relax1_fire (0 + 1) 2 _ 2 (by simp [upd, size_succ]) (by simp [upd]; omega)]
  rw [relax1_skip (0 + 1) 1 _ 2 (by simp [upd, size_succ]) (by simp [upd])]
  -- position 2, the key "c"
  rw [relax1_skip (0 + 1 + 1) 1 _ 2 (by simp [upd, size_succ]) (by simp [upd])]
  simp [upd]

theorem sp_seg_table_eq (INF : Nat) (inp : List Nat) (s : conv_state) (N : Nat)
    (hs : lexicon_sorted s.dicts.lexicon)
    (hstale : s.sp_seg_buffer.match_length 0 ≠ 1 ∨
      key_lengths s.dicts.lexicon s.dicts.max_length (inp.drop (s.inbuf + 0)) ≠ []) :
    ((sp_seg_table INF inp s N).sp_seg_buffer.min_len,
      (sp_seg_table INF inp s N).sp_seg_buffer.parent) =
      dp_fold (window_cands s.dicts.lexicon s.dicts.max_length inp s.inbuf) N 0
        (upd (fun i => if i ≤ N then INF else s.sp_seg_buffer.min_len i) 0 0,
          upd s.sp_seg_buffer.parent 0 0) ∧
    (sp_seg_table INF inp s N).sp_seg_buffer.path = s.sp_seg_buffer.path ∧
    core (sp_seg_table INF inp s N) = core s := by
  have key : ∀ ossb1 : opencc_sp_seg_buffer,
      ossb1.match_length = s.sp_seg_buffer.match_length →
      ossb1.min_len = s.sp_seg_buffer.min_len → ossb1.parent = s.sp_seg_buffer.parent →
      ossb1.path = s.sp_seg_buffer.path →
      let s1 := sp_seg_dp inp N 0 { s with sp_seg_buffer := sp_seg_reset INF ossb1 N }
      (s1.sp_seg_buffer.min_len, s1.sp_seg_buffer.parent) =
        dp_fold (window_cands s.dicts.lexicon s.dicts.max_length inp s.inbuf) N 0
          (upd (fun i => if i ≤ N then INF else s.sp_seg_buffer.min_len i) 0 0,
            upd s.sp_seg_buffer.parent 0 0) ∧
      s1.sp_seg_buffer.path = s.sp_seg_buffer.path ∧ core s1 = core s := by
    intro ossb1 e1 e2 e3 e4 s1
    have hst : ({ s with sp_seg_buffer := sp_seg_reset INF ossb1 N } : conv_state).sp_seg_buffer.match_length 0 ≠ 1 ∨
        key_lengths ({ s with sp_seg_buffer := sp_seg_reset INF ossb1 N } : conv_state).dicts.lexicon
          ({ s with sp_seg_buffer := sp_seg_reset INF ossb1 N } : conv_state).dicts.max_length
          (inp.drop (({ s with sp_seg_buffer := sp_seg_reset INF ossb1 N } : conv_state).inbuf + 0)) ≠ [] := by
      simpa [sp_seg_reset, e1] using hstale
    obtain ⟨a1, _, a3, _, _, a6, a7, a8, a9, a10, a11, a12⟩ :=
      sp_seg_dp_eq inp N 0 { s with sp_seg_buffer := sp_seg_reset INF ossb1 N } hs hst
    refine ⟨?_, ?_, ?_⟩
    · rw [a1]; simp only [sp_seg_reset, e2, e3]
    · rw [a3]; simp only [sp_seg_reset, e4]
    · rw [core_eq_iff]; exact ⟨a8, a9, a10, a11, a12, a6, a7⟩
  have hs1 : sp_seg_table INF inp s N = sp_seg_table INF inp s N := rfl
  conv_rhs at hs1 => unfold sp_seg_table
  by_cases hb : s.sp_seg_buffer.initialized = false ∨ s.sp_seg_buffer.buffer_size < N + 1
  · have := key (sp_seg_set_buffer_size s.sp_seg_buffer (N + 1)) rfl rfl rfl rfl
    simp only [hb, if_true] at hs1
    rw [hs1]; exact this
  · have := key s.sp_seg_buffer rfl rfl rfl rfl
    simp only [hb, if_false] at hs1
    rw [hs1]; exact this

theorem sp_seg_emit_hit (inp : List Nat) (L0 n i b : Nat) (s : conv_state)
    (lex : List opencc_entry) (M : Nat) (v : List Nat) (k : Nat)
    (hs : lexicon_sorted lex) (hlex : s.dicts.lexicon = lex) (hM : s.dicts.max_length = M)
    (hm : size_sub (s.sp_seg_buffer.path i) b ≤ ucs4len (inp.drop s.inbuf))
    (hv : longest_match lex (inp.drop s.inbuf)
      (min (if size_sub (s.sp_seg_buffer.path i) b = 0 then ucs4len (inp.drop s.inbuf)
        else size_sub (s.sp_seg_buffer.path i) b) M) = some (v, k))
    (hcap : v.length ≤ s.outbuf_left) :
    ∃ s', sp_seg_emit inp L0 (n + 1) i b s =
        sp_seg_emit inp L0 n (i + 1) (s.sp_seg_buffer.path i) s' ∧
      core s' = (s.inbuf + k, size_sub s.inbuf_left k, s.out ++ v,
        size_sub s.outbuf_left v.length, s.errnum, lex, M) ∧
      s'.sp_seg_buffer = s.sp_seg_buffer := by
  obtain ⟨a1, a2⟩ := dict_match_longest_eval s (inp.drop s.inbuf)
    (size_sub (s.sp_seg_buffer.path i) b) 0 lex M v k hs hlex hM hm hv
  obtain ⟨f1, f2⟩ := dict_match_longest_frame s (inp.drop s.inbuf)
    (size_sub (s.sp_seg_buffer.path i) b) 0
  rw [core_eq_iff] at f1
  obtain ⟨g1, g2, g3, g4, g5, g6, g7⟩ := f1
  refine ⟨emit_value v k (dict_match_longest s (inp.drop s.inbuf)
    (size_sub (s.sp_seg_buffer.path i) b) 0).2.2, ?_, ?_, ?_⟩
  · rw [sp_seg_emit]
    simp only [a1, a2]
    rw [if_neg (by rw [g4]; omega)]
  · simp only [core, emit_value, g1, g2, g3, g4, g5, g6, g7, hlex, hM]
  · simp only [emit_value, f2]

theorem sp_seg_s3 (INF : Nat) (s : conv_state) (hlex : s.dicts.lexicon = lexicon_s3)
    (hM : s.dicts.max_length = 2) (hin0 : s.inbuf = 0) (hleft : s.inbuf_left = 3)
    (hcap : 2 ≤ s.outbuf_left) (hN : 3 < INF) (hI : INF < 2 ^ 64 - 1) :
    ∃ s', sp_seg INF [97, 98, 99] s 3 = some (3, s') ∧
      core s' = (3, 0, s.out ++ [65, 81], s.outbuf_left - 2, s.errnum, lexicon_s3, 2) := by
  have hsort : lexicon_sorted lexicon_s3 := by decide
  obtain ⟨t1, t2, t3⟩ := sp_seg_table_eq INF [97, 98, 99] s 3 (by rw [hlex]; exact hsort)
    (Or.inr (by rw [hlex, hM, hin0]; decide))
  rw [hlex, hM, hin0] at t1
  obtain ⟨d1, d2, d3⟩ := dp_fold_s3 INF hN hI s.sp_seg_buffer.min_len s.sp_seg_buffer.parent
    (window_cands lexicon_s3 2 [97, 98, 99] 0) (by decide) (by decide) (by decide)
  rw [← t1] at d1 d2 d3
  simp only at d1 d2 d3
  rw [core_eq_iff] at t3
  obtain ⟨c1, c2, c3, c4, c5, c6, c7⟩ := t3
  unfold sp_seg
  rw [if_neg (by decide)]
  generalize sp_seg_table INF [97, 98, 99] s 3 = s1 at *
  have hwalk : sp_seg_walk s1.sp_seg_buffer.parent 3 3 2 s1.sp_seg_buffer.path =
      some (upd (upd s1.sp_seg_buffer.path 1 3) 0 1) := by
    rw [sp_seg_walk.eq_def]
    simp only [show (3 : Nat) ≠ 0 by decide, if_false, d2]
    rw [sp_seg_walk.eq_def]
    simp only [show (1 : Nat) ≠ 0 by decide, if_false, d3,
      show size_sub 2 1 = 1 by decide, show size_sub 1 1 = 0 by decide]
    rw [sp_seg_walk.eq_def]
    simp only [if_true]
  simp only [d1, hwalk]
  generalize hs2 : ({ s1 with sp_seg_buffer :=
    { s1.sp_seg_buffer with path := upd (upd s1.sp_seg_buffer.path 1 3) 0 1 } } : conv_state) = s2
  have p0 : s2.sp_seg_buffer.path 0 = 1 := by rw [← hs2]; simp [upd]
  have p1 : s2.sp_seg_buffer.path 1 = 3 := by rw [← hs2]; simp [upd]
  have q1 : s2.inbuf = 0 := by rw [← hs2]; exact c1.trans hin0
  have q2 : s2.inbuf_left = 3 := by rw [← hs2]; exact c2.trans hleft
  have q3 : s2.out = s.out := by rw [← hs2]; exact c3
  have q4 : s2.outbuf_left = s.outbuf_left := by rw [← hs2]; exact c4
  have q5 : s2.errnum = s.errnum := by rw [← hs2]; exact c5
  have q6 : s2.dicts.lexicon = lexicon_s3 := by rw [← hs2]; exact c6.trans hlex
  have q7 : s2.dicts.max_length = 2 := by rw [← hs2]; exact c7.trans hM
  obtain ⟨s3, e1, k1, b1⟩ := sp_seg_emit_hit [97, 98, 99] s1.inbuf_left 1 0 0 s2 lexicon_s3 2
    [65] 1 hsort q6 q7 (by rw [p0, q1]; decide) (by rw [p0, q1]; decide)
    (by rw [q4]; exact Nat.le_trans (by decide) hcap)
  rw [e1, p0]
  simp only [core, Prod.mk.injEq] at k1
  obtain ⟨r1, r2, r3, r4, r5, r6, r7⟩ := k1
  rw [q1] at r1
  rw [q2] at r2
  obtain ⟨s4, e2, k2, b2⟩ := sp_seg_emit_hit [97, 98, 99] s1.inbuf_left 0 1 1 s3 lexicon_s3 2
    [81] 2 hsort r6 r7 (by rw [b1, p1, r1]; decide) (by rw [b1, p1, r1]; decide)
    (by rw [r4, q4, size_sub_le _ _ (Nat.le_trans (by decide) hcap)]
        show 1 ≤ s.outbuf_left - 1
        omega)
  rw [e2]
  refine ⟨s4, ?_, ?_⟩
  · rw [sp_seg_emit]
    simp only [core, Prod.mk.injEq] at k2
    rw [k2.2.1, r2, c2, hleft]
    rfl
  · rw [k2, r1, r2, r3, r4, r5, q3, q4, q5]
    have h1 : size_sub s.outbuf_left ([65] : List Nat).length = s.outbuf_left - 1 :=
      size_sub_le _ _ (Nat.le_trans (by decide) hcap)
    rw [h1]
    have h2 : size_sub (s.outbuf_left - 1) ([81] : List Nat).length = s.outbuf_left - 2 := by
      rw [size_sub_le _ _ (by show 1 ≤ s.outbuf_left - 1; omega)]
      show s.outbuf_left - 1 - 1 = s.outbuf_left - 2
      omega
    rw [h2]
    simp
    decide

/-- C4 (amended): for the dictionary of scenario S3 and the input "abc", whatever the
scratch buffers hold, whatever `INFINITY_INT` between 4 and `SIZE_MAX - 1` and whatever
the indeterminate `match_len`, with room for at least two code points `segment`
writes "AQ", the split `a | bc`, consumes the three code points and returns 3. -/
theorem segment_tie_break_general (INF u : Nat) (s : conv_state)
    (hlex : s.dicts.lexicon = lexicon_s3) (hM : s.dicts.max_length = 2)
    (hleft : s.inbuf_left = 3) (hcap : 2 ≤ s.outbuf_left) (hN : 3 < INF)
    (hI : INF < 2 ^ 64 - 1) :
    observe (segment INF u [97, 98, 99] s) =
      some (3, s.out ++ [65, 81], 3, 0, s.outbuf_left - 2, s.errnum) := by
  unfold OpenCC.segment
  generalize hs0 : ({ s with inbuf := 0 } : conv_state) = s0
  have q1 : s0.inbuf = 0 := by rw [← hs0]
  have q2 : s0.inbuf_left = 3 := by rw [← hs0]; exact hleft
  have q3 : s0.out = s.out := by rw [← hs0]
  have q4 : s0.outbuf_left = s.outbuf_left := by rw [← hs0]
  have q5 : s0.errnum = s.errnum := by rw [← hs0]
  have q6 : s0.dicts.lexicon = lexicon_s3 := by rw [← hs0]; exact hlex
  have q7 : s0.dicts.max_length = 2 := by rw [← hs0]; exact hM
  rw [hleft]
  obtain ⟨s1, e1, k1, _⟩ := segment_scan_s3 INF u s0 q6 q7 (by rw [q2]; decide)
    (by rw [q4]; omega)
  rw [e1]
  rw [core_eq_iff] at k1
  obtain ⟨c1, c2, c3, c4, c5, c6, c7⟩ := k1
  obtain ⟨s2, e2, k2⟩ := sp_seg_s3 INF s1 (c6.trans q6) (c7.trans q7) (c1.trans q1)
    (c2.trans q2) (by rw [c4, q4]; exact hcap) hN hI
  simp only [core, Prod.mk.injEq] at k2
  obtain ⟨r1, r2, r3, r4, r5, _, _⟩ := k2
  unfold segment_tail
  rw [if_pos ⟨by rw [c2, q2]; decide, by rw [c4, q4]; omega⟩]
  unfold segment_call
  rw [show size_sub 3 0 = 3 by decide, e2]
  simp only [show ¬ ((3 : Nat) = SIZE_MAX) by decide, show ¬ ((3 : Nat) = 0) by decide, if_false]
  simp only [observe, Option.map_some', r1, r2, r3, r4, r5, c3, c4, c5, q3, q4, q5]
  rfl

/-- C4 (amended), witness: the dictionary of scenario S3 with every scratch cell holding
a stale `1`, `INFINITY_INT = 1000`, `match_len` starting at 7 and room for exactly two
code points. -/
theorem segment_tie_break_general_witness :
    observe (segment 1000 7 [97, 98, 99]
      (mk_state (mk_dict lexicon_s3 (fun _ => 1)) (fun _ => 1) 3 2)) =
    some (3, [65, 81], 3, 0, 0, converter_error.CONVERTER_ERROR_VOID) :=
  segment_tie_break_general 1000 7
    (mk_state (mk_dict lexicon_s3 (fun _ => 1)) (fun _ => 1) 3 2)
    rfl (by decide) rfl (by decide) (by decide) (by decide)

/-- C14: `converter_convert` on a converter with no dictionary chain assigned
(`cd->dicts == NULL`, as `converter_open` leaves it) returns `(size_t) -1`, sets
`errnum` to `CONVERTER_ERROR_NODICT` and leaves `*inbuf`, `*inbuf_left`,
`*outbuf`, `*outbuf_left`, the output buffer and the converter unchanged. -/
theorem converter_convert_nodict (INF : Nat) (u tmp0 : Nat → Nat) (retval0 : Nat)
    (cd : opencc_converter_description) (inp : List Nat) (inbuf_left : Nat)
    (out0 : Nat → Nat) (outbuf_left : Nat) (errnum : converter_error)
    (h : cd.dicts = none) :
    ∃ r, converter_convert INF u tmp0 retval0 cd inp inbuf_left out0 outbuf_left errnum =
        some r ∧
      r.ret = SIZE_MAX ∧ r.errnum = converter_error.CONVERTER_ERROR_NODICT ∧
      r.inbuf = 0 ∧ r.inbuf_left = inbuf_left ∧ r.outbuf = (buffer_id.caller, 0) ∧
      r.outbuf_left = outbuf_left ∧ r.outcells = out0 ∧ r.cd = cd := by
  unfold converter_convert
  rw [h]
  exact ⟨_, rfl, rfl, rfl, rfl, rfl, rfl, rfl, rfl, rfl⟩

/-- C14, witness: the converter `converter_open` returns, called on the input
"aaaa" with an output capacity of 8. -/
theorem converter_convert_nodict_witness :
    (converter_open ⟨true, 0, fun _ => 7, fun _ => 7, fun _ => 7, fun _ => 7⟩).dicts = none ∧
    ∃ r, converter_convert 2147483647 (fun _ => 0) (fun _ => 0) 0
        (converter_open ⟨true, 0, fun _ => 7, fun _ => 7, fun _ => 7, fun _ => 7⟩)
        [97, 97, 97, 97] 4 (fun _ => 0) 8 converter_error.CONVERTER_ERROR_VOID = some r ∧
      r.ret = SIZE_MAX ∧ r.errnum = converter_error.CONVERTER_ERROR_NODICT ∧
      r.inbuf = 0 ∧ r.inbuf_left = 4 ∧ r.outbuf = (buffer_id.caller, 0) ∧
      r.outbuf_left = 8 ∧ r.outcells = (fun _ => 0) ∧
      r.cd = converter_open ⟨true, 0, fun _ => 7, fun _ => 7, fun _ => 7, fun _ => 7⟩ :=
  ⟨rfl, converter_convert_nodict 2147483647 (fun _ => 0) (fun _ => 0) 0
    (converter_open ⟨true, 0, fun _ => 7, fun _ => 7, fun _ => 7, fun _ => 7⟩)
    [97, 97, 97, 97] 4 (fun _ => 0) 8 converter_error.CONVERTER_ERROR_VOID rfl⟩

/-- A chain of two stages: when both calls of `segment` return a count,
`converter_convert` returns the count of the first stage and takes `*inbuf` and
`*inbuf_left` from it; the second stage reads the `cap` cells of the scratch
buffer, of which the first stage has written only the first ones. -/
theorem converter_convert_two_stages (INF : Nat) (u tmp0 : Nat → Nat) (retval0 : Nat)
    (cd : opencc_converter_description) (td1 td2 : text_dictionary) (cur0 : Nat)
    (inp : List Nat) (inbuf_left : Nat) (out0 : Nat → Nat) (cap : Nat) (errnum : converter_error)
    (r1 r2 : Nat) (s1 s2 : conv_state) (k : Nat)
    (hd : cd.dicts = some ⟨[td1, td2], cur0⟩)
    (h1 : segment INF (u 0) inp (stage_state cd.sp_seg_buffer td1 inbuf_left cap errnum) =
      some (r1, s1))
    (hr1 : r1 ≠ SIZE_MAX)
    (h2 : segment INF (u 1) (buffer_cells (store tmp0 0 s1.out) cap)
      (stage_state s1.sp_seg_buffer td2 (size_sub cap s1.outbuf_left) cap s1.errnum) =
      some (r2, s2))
    (hr2 : r2 ≠ SIZE_MAX) :
    observe_convert k (converter_convert INF u tmp0 retval0 cd inp inbuf_left out0 cap errnum) =
      some ⟨r1, s1.inbuf, s1.inbuf_left, (buffer_id.caller, s2.out.length), s2.outbuf_left,
        buffer_cells (store out0 0 s2.out) k, s2.errnum⟩ := by
  unfold converter_convert
  rw [hd]
  simp only [dict_count, List.length_cons, List.length_nil, show ¬ (0 + 1 + 1 = 1) by decide,
    if_false, convert_loop, convert_stage, dict_use, Nat.lt_irrefl, List.get?_cons_zero,
    h1, hr1, gt_iff_lt, if_true]
  simp only [show (0 : Nat) < 0 + 1 by decide, if_true, show (1 - 0 : Nat) = 1 by decide,
    List.set_cons_zero, List.get?_cons_succ, List.get?_cons_zero, h2, hr2, if_false,
    show ¬ ((0 : Nat) + 1 = 0) by decide]
  simp [observe_convert]

/-- C12, the code at the failing input: stage 1 {"a" -> "b"}, stage 2
{"b" -> "c", "bx" -> "Z"}, input "a", capacity 4, and a scratch buffer whose
second cell holds a stale "x".  Stage 1 turns "a" into "b" and stage 2 turns
"b" into "c", but `converter_convert` leaves "Z" in the caller's buffer: stage
2 reads the scratch buffer past the one code point stage 1 wrote.  With a
scratch buffer of zeros the same call leaves "c". -/
theorem converter_convert_chain_stale_scratch :
    observe (segment 2147483647 0 [97]
      (stage_state (converter_open ⟨true, 0, fun _ => 0, fun _ => 0, fun _ => 0,
        fun _ => 0⟩).sp_seg_buffer (mk_dict [⟨[97], [98]⟩] (fun _ => 0)) 1 4
        converter_error.CONVERTER_ERROR_VOID)) =
      some (1, [98], 1, 0, 3, converter_error.CONVERTER_ERROR_VOID) ∧
    observe (segment 2147483647 0 [98]
      (stage_state (converter_open ⟨true, 0, fun _ => 0, fun _ => 0, fun _ => 0,
        fun _ => 0⟩).sp_seg_buffer (mk_dict [⟨[98], [99]⟩, ⟨[98, 120], [90]⟩] (fun _ => 0)) 1 4
        converter_error.CONVERTER_ERROR_VOID)) =
      some (1, [99], 1, 0, 3, converter_error.CONVERTER_ERROR_VOID) ∧
    observe_convert 1 (converter_convert 2147483647 (fun _ => 0)
      (fun j => if j = 1 then 120 else 0) 0
      (converter_assign_dicts
        (converter_open ⟨true, 0, fun _ => 0, fun _ => 0, fun _ => 0, fun _ => 0⟩)
        (mk_group [mk_dict [⟨[97], [98]⟩] (fun _ => 0),
          mk_dict [⟨[98], [99]⟩, ⟨[98, 120], [90]⟩] (fun _ => 0)]))
      [97] 1 (fun _ => 0) 4 converter_error.CONVERTER_ERROR_VOID) =
      some ⟨1, 1, 0, (buffer_id.caller, 1), 3, [90], converter_error.CONVERTER_ERROR_VOID⟩ ∧
    observe_convert 1 (converter_convert 2147483647 (fun _ => 0) (fun _ => 0) 0
      (converter_assign_dicts
        (converter_open ⟨true, 0, fun _ => 0, fun _ => 0, fun _ => 0, fun _ => 0⟩)
        (mk_group [mk_dict [⟨[97], [98]⟩] (fun _ => 0),
          mk_dict [⟨[98], [99]⟩, ⟨[98, 120], [90]⟩] (fun _ => 0)]))
      [97] 1 (fun _ => 0) 4 converter_error.CONVERTER_ERROR_VOID) =
      some ⟨1, 1, 0, (buffer_id.caller, 1), 3, [99], converter_error.CONVERTER_ERROR_VOID⟩ := by
  refine ⟨by decide, by decide, ?_, by decide⟩
  obtain ⟨s1, h1, hb, ho, hl, he, hi, hil⟩ : ∃ s1, segment 2147483647 0 [97]
      (stage_state (converter_open ⟨true, 0, fun _ => 0, fun _ => 0, fun _ => 0,
        fun _ => 0⟩).sp_seg_buffer (mk_dict [⟨[97], [98]⟩] (fun _ => 0)) 1 4
        converter_error.CONVERTER_ERROR_VOID) = some (1, s1) ∧
      s1.sp_seg_buffer = (converter_open ⟨true, 0, fun _ => 0, fun _ => 0, fun _ => 0,
        fun _ => 0⟩).sp_seg_buffer ∧ s1.out = [98] ∧ s1.outbuf_left = 3 ∧
      s1.errnum = converter_error.CONVERTER_ERROR_VOID ∧ s1.inbuf = 1 ∧ s1.inbuf_left = 0 :=
    ⟨_, rfl, rfl, rfl, rfl, rfl, rfl, rfl⟩
  obtain ⟨s2, h2, ho2, hl2, he2⟩ : ∃ s2, segment 2147483647 0
      (buffer_cells (store (fun j => if j = 1 then 120 else 0) 0 [98]) 4)
      (stage_state (converter_open ⟨true, 0, fun _ => 0, fun _ => 0, fun _ => 0,
        fun _ => 0⟩).sp_seg_buffer (mk_dict [⟨[98], [99]⟩, ⟨[98, 120], [90]⟩] (fun _ => 0))
        (size_sub 4 3) 4 converter_error.CONVERTER_ERROR_VOID) = some (2, s2) ∧
      s2.out = [90] ∧ s2.outbuf_left = 3 ∧ s2.errnum = converter_error.CONVERTER_ERROR_VOID :=
    ⟨_, rfl, rfl, rfl, rfl⟩
  have h := converter_convert_two_stages 2147483647 (fun _ => 0)
    (fun j => if j = 1 then 120 else 0) 0
    (converter_assign_dicts
      (converter_open ⟨true, 0, fun _ => 0, fun _ => 0, fun _ => 0, fun _ => 0⟩)
      (mk_group [mk_dict [⟨[97], [98]⟩] (fun _ => 0),
        mk_dict [⟨[98], [99]⟩, ⟨[98, 120], [90]⟩] (fun _ => 0)]))
    _ _ 0 [97] 1 (fun _ => 0) 4 converter_error.CONVERTER_ERROR_VOID 1 2 s1 s2 1 rfl h1
    (by decide) (by rw [hb, ho, hl, he]; exact h2) (by decide)
  rw [h, hi, hil, ho2, hl2, he2]
  rfl

/-- C13, the code at the failing input: the chain {"a" -> "b"}, {"b" -> "c"},
{"c" -> "d"} on the input "aaaa" with capacity 8 and buffers of zeros.  The
last stage turns "cccc" into "dddd" in the scratch buffer, but the caller's
buffer holds "dccc" after the call (`memcpy` copies 4 bytes, one code point),
and `*outbuf` points into the scratch buffer at offset 4. -/
theorem converter_convert_odd_chain :
    observe (segment 2147483647 0 [99, 99, 99, 99]
      (stage_state (converter_open ⟨true, 0, fun _ => 0, fun _ => 0, fun _ => 0,
        fun _ => 0⟩).sp_seg_buffer (mk_dict [⟨[99], [100]⟩] (fun _ => 0)) 4 8
        converter_error.CONVERTER_ERROR_VOID)) =
      some (4, [100, 100, 100, 100], 4, 0, 4, converter_error.CONVERTER_ERROR_VOID) ∧
    observe_convert 4 (converter_convert 2147483647 (fun _ => 0) (fun _ => 0) 0
      (converter_assign_dicts
        (converter_open ⟨true, 0, fun _ => 0, fun _ => 0, fun _ => 0, fun _ => 0⟩)
        (mk_group [mk_dict [⟨[97], [98]⟩] (fun _ => 0), mk_dict [⟨[98], [99]⟩] (fun _ => 0),
          mk_dict [⟨[99], [100]⟩] (fun _ => 0)]))
      [97, 97, 97, 97] 4 (fun _ => 0) 8 converter_error.CONVERTER_ERROR_VOID) =
      some ⟨4, 4, 0, (buffer_id.scratch, 4), 4, [100, 99, 99, 99],
        converter_error.CONVERTER_ERROR_VOID⟩ := by
  constructor <;> decide

/-- C16, the code at the failing input: on a dictionary with no entries
`dict_text_match_longest` returns `NULL` and leaves `*match_length` as it was,
for every word, `maxlen` and previous content `ml`, whereas a miss on a
dictionary with entries stores 0 (here {"x" -> "y"} on the word "ab").
`segment`, which reads the length after a miss, then takes the indeterminate
value (5 here) for a match length: on the input "ab" it copies six cells and
returns 6. -/
theorem dict_text_match_longest_empty_dictionary :
    (∀ (M : Nat) (wb : Nat → Nat) (word : List Nat) (maxlen ml : Nat),
      (dict_text_match_longest ⟨M, [], wb⟩ word maxlen ml).1 = none ∧
      (dict_text_match_longest ⟨M, [], wb⟩ word maxlen ml).2.1 = ml) ∧
    (dict_text_match_longest (mk_dict [⟨[120], [121]⟩] (fun _ => 0)) [97, 98] 0 7).1 = none ∧
    (dict_text_match_longest (mk_dict [⟨[120], [121]⟩] (fun _ => 0)) [97, 98] 0 7).2.1 = 0 ∧
    observe (segment 2147483647 5 [97, 98]
      (mk_state (mk_dict [] (fun _ => 0)) (fun _ => 0) 2 10)) =
      some (6, [97, 98, 0, 0, 0, 0], 6, 2 ^ 64 - 4, 4,
        converter_error.CONVERTER_ERROR_VOID) := by
  refine ⟨fun M wb word maxlen ml => ⟨rfl, rfl⟩, by decide, by decide, by decide⟩

theorem qsort_perm (l : List opencc_entry) : (qsort l).Perm l :=
  List.perm_insertionSort entry_le l

/-- C11, the code at the failing input: with the dictionary {"ab" -> "X",
"bc" -> "YYY"} and the input "abcd", a call with capacity 2 returns 2 without
error after writing "ab", although the call with capacity 100 writes "aYYYd":
the segment "bc" was split, and "ab" is not a prefix of "aYYYd". -/
theorem segment_partial_not_at_boundary :
    lexicon_sorted [⟨[97, 98], [88]⟩, ⟨[98, 99], [89, 89, 89]⟩] ∧
    observe (segment 2147483647 0 [97, 98, 99, 100]
      (mk_state (mk_dict [⟨[97, 98], [88]⟩, ⟨[98, 99], [89, 89, 89]⟩] (fun _ => 0))
        (fun _ => 0) 4 2)) =
      some (2, [97, 98], 2, 2, 0, converter_error.CONVERTER_ERROR_VOID) ∧
    observe (segment 2147483647 0 [97, 98, 99, 100]
      (mk_state (mk_dict [⟨[97, 98], [88]⟩, ⟨[98, 99], [89, 89, 89]⟩] (fun _ => 0))
        (fun _ => 0) 4 100)) =
      some (4, [97, 89, 89, 89, 100], 4, 0, 95, converter_error.CONVERTER_ERROR_VOID) ∧
    ¬ ([97, 98] <+: [97, 89, 89, 89, 100]) := by
  refine ⟨by decide, by decide, by decide, by decide⟩

/-- C19, the code at the failing input: with the dictionary {"ab" -> "X",
"bc" -> "YYY"}, the input "abcd" and capacity 2, `segment` calls `sp_seg`
twice.  At the second call `start = 3` and `bound = 4` while `*inbuf` is at
offset 1, and the longest match starting at `*inbuf` ("bc") has 2 code points,
more than the length `bound - start = 1` of the window. -/
theorem segment_calls_out_of_step :
    segment_calls 2147483647 0 [97, 98, 99, 100]
      (mk_state (mk_dict [⟨[97, 98], [88]⟩, ⟨[98, 99], [89, 89, 89]⟩] (fun _ => 0))
        (fun _ => 0) 4 2) =
      [⟨0, 3, 0, 4⟩, ⟨3, 4, 1, 3⟩] ∧
    (dict_text_match_longest (mk_dict [⟨[97, 98], [88]⟩, ⟨[98, 99], [89, 89, 89]⟩] (fun _ => 0))
      ([97, 98, 99, 100].drop 1) 0 0).2.1 = 2 := by
  constructor <;> decide

/-- Scenario S4 evaluated (stage 1 {"a" -> "b"}, stage 2 {"b" -> "c"}, input
"a", capacity 4, buffers of zeros): the caller's buffer holds "c", the call
returns 1, and `*outbuf` points one cell into the caller's buffer. -/
theorem converter_convert_scenario_s4 :
    observe_convert 1 (converter_convert 2147483647 (fun _ => 0) (fun _ => 0) 0
      (converter_assign_dicts
        (converter_open ⟨true, 0, fun _ => 0, fun _ => 0, fun _ => 0, fun _ => 0⟩)
        (mk_group [mk_dict [⟨[97], [98]⟩] (fun _ => 0), mk_dict [⟨[98], [99]⟩] (fun _ => 0)]))
      [97] 1 (fun _ => 0) 4 converter_error.CONVERTER_ERROR_VOID) =
      some ⟨1, 1, 0, (buffer_id.caller, 1), 3, [99], converter_error.CONVERTER_ERROR_VOID⟩ := by
  decide

end OpenCC
